import Mathlib

/-!
# go-lacartoons: crawl pipeline of `main.go`

A shallow embedding of the functions of `main.go`
(`getLastPage`, `getAllSeriesUrls`, `getSeries`, `getEpisodesByShow`,
`getEpisodeExternalUrl`, `getSeriesPerPage`) and the properties of them.

Conventions of the embedding.

* A Go `string` is a Lean `String`; a Go `int` is an `Int`: `strconv.Atoi`
  keeps its results inside the range of `int`, and the arithmetic on the loop
  counter of `getAllSeriesUrls` wraps around as two's complement (`wrapInt`).
* A Go `error` is a value of `Error`; the `error` result of a function is an
  `Option Error`, `none` standing for `nil`.  Go functions return the value and
  the error side by side, and so do their embeddings.
* A `nil` slice and an empty slice are both the empty list.
* The network is a `World`: the answer to a GET may depend on the address and
  on every request issued before it.  Every function that issues requests takes
  the list of the requests issued so far and returns it extended.
* A fetched document is represented by what the fixed selectors of `main.go`
  match on it, in document order.
* A run-time panic (index out of range, `make` with a length that
  `runtime.makeslice` refuses) is the `Run.panic` outcome.  An allocation that
  `runtime.makeslice` accepts succeeds.
-/

set_option autoImplicit false

namespace LaCartoons

/-! ## Errors and run-time panics -/

/-- The Go `error` values that `main.go` can produce or pass on. -/
inductive Error where
  /-- Failure reported by `http.Get` itself. -/
  | transport (msg : String)
  /-- The error `fmt.Errorf("GET request failed with status code %d", code)`. -/
  | status (code : Int)
  /-- Failure of `url.Parse`. -/
  | urlParse (raw : String)
  /-- Failure of `goquery.NewDocumentFromReader`. -/
  | document (msg : String)
  /-- Failure of `Selection.Html`. -/
  | render (msg : String)
  /-- The `*strconv.NumError` wrapping `strconv.ErrSyntax`. -/
  | numSyntax (num : String)
  /-- The `*strconv.NumError` wrapping `strconv.ErrRange`. -/
  | numRange (num : String)
  deriving DecidableEq, Repr

/-- Outcome of a Go computation that may panic. -/
inductive Run (α : Type) where
  | panic (msg : String)
  | done (a : α)
  deriving DecidableEq, Repr

/-! ## Library layer: `strconv`, `strings`, `fmt` -/

/-- Length of a Go string, `len(s)`: the number of bytes of its UTF-8 form. -/
def goLen (s : String) : Nat :=
  (s.toList.map Char.utf8Size).sum

/-- The loop of `strconv.ParseUint` for base 10: `cutoff` is
`maxUint64/10 + 1`, `maxVal` is `1<<bitSize - 1`, and the 64-bit wrap-around of
`n + d` is the test `n1 < n`.  A range error is reported as soon as it is met,
with the value `maxVal`. -/
def parseUintLoop (s0 : String) (maxVal : Nat) : List Char → Nat → Nat × Option Error
  | [], n => (n, none)
  | c :: cs, n =>
    if '0' ≤ c ∧ c ≤ '9' then
      let d := c.toNat - '0'.toNat
      if n ≥ (2 ^ 64 - 1) / 10 + 1 then (maxVal, some (.numRange s0))
      else
        let n10 := n * 10
        let n1 := (n10 + d) % 2 ^ 64
        if n1 < n10 ∨ n1 > maxVal then (maxVal, some (.numRange s0))
        else parseUintLoop s0 maxVal cs n1
    else (0, some (.numSyntax s0))

/-- Go `strconv.ParseUint(s, 10, bitSize)` with `bitSize` already replaced by
`IntSize` when it is 0. -/
def parseUint (s : String) (bitSize : Nat) : Nat × Option Error :=
  if s = "" then (0, some (.numSyntax s))
  else parseUintLoop s (2 ^ bitSize - 1) s.toList 0

/-- Go `strconv.ParseInt(s, 10, 0)` on a platform whose `int` has `intSize`
bits. -/
def parseInt (intSize : Nat) (s : String) : Int × Option Error :=
  if s = "" then (0, some (.numSyntax s))
  else
    let neg := s.toList.head? = some '-'
    let digits : List Char :=
      if s.toList.head? = some '+' ∨ s.toList.head? = some '-' then s.toList.tail
      else s.toList
    match parseUint (String.mk digits) intSize with
    | (_, some (.numSyntax _)) => (0, some (.numSyntax s))
    | (un, _) =>
      let cutoff : Nat := 2 ^ (intSize - 1)
      if ¬ neg ∧ un ≥ cutoff then (((cutoff - 1 : Nat) : Int), some (.numRange s))
      else if neg ∧ un > cutoff then (-((cutoff : Nat) : Int), some (.numRange s))
      else if neg then (-(un : Int), none)
      else ((un : Int), none)

/-- The digit loop of the fast path of `strconv.Atoi`. -/
def atoiFast (s0 : String) : List Char → Int → Int × Option Error
  | [], n => (n, none)
  | c :: cs, n =>
    if '0' ≤ c ∧ c ≤ '9' then atoiFast s0 cs (n * 10 + ((c.toNat - '0'.toNat : Nat) : Int))
    else (0, some (.numSyntax s0))

/-- Go `strconv.Atoi` on a platform whose `int` has `intSize` bits: the fast
path for short strings, `ParseInt(s, 10, 0)` otherwise.  On a range error the
value returned next to the error is the largest magnitude of the sign. -/
def Atoi (intSize : Nat) (s : String) : Int × Option Error :=
  let sLen := goLen s
  if (intSize = 32 ∧ (0 < sLen ∧ sLen < 10)) ∨ (intSize = 64 ∧ (0 < sLen ∧ sLen < 19)) then
    let signed := s.toList.head? = some '-' ∨ s.toList.head? = some '+'
    let digits : List Char := if signed then s.toList.tail else s.toList
    if signed ∧ digits.length < 1 then (0, some (.numSyntax s))
    else
      match atoiFast s digits 0 with
      | (_, some err) => (0, some err)
      | (n, none) => if s.toList.head? = some '-' then (-n, none) else (n, none)
  else parseInt intSize s

/-- Go `strings.Trim(s, cutset)`: `s` without the leading and trailing
characters that occur in `cutset`. -/
def Trim (s : String) (cutset : String) : String :=
  String.mk (((s.toList.dropWhile (fun c => decide (c ∈ cutset.toList))).reverse.dropWhile
    (fun c => decide (c ∈ cutset.toList))).reverse)

/-- Go `fmt.Sprintf("%v://%v%v", scheme, host, path)`. -/
def sprintfUrl (scheme host path : String) : String :=
  scheme ++ "://" ++ host ++ path

/-- Go `fmt.Sprintf("%s/?page=%d", url, page)`. -/
def sprintfPage (url : String) (page : Int) : String :=
  url ++ "/?page=" ++ toString page

/-- Assignment `xs[i] = v` on a slice: a panic when `i` is out of range. -/
def setIndex {α : Type} (xs : List α) (i : Int) (v : α) : Run (List α) :=
  if 0 ≤ i ∧ i < (xs.length : Int) then .done (xs.set i.toNat v)
  else .panic "index out of range"

/-- Two's-complement value of an `int` of `intSize` bits: what the result `x`
of an addition or subtraction becomes when it does not fit. -/
def wrapInt (intSize : Nat) (x : Int) : Int :=
  (x + 2 ^ (intSize - 1)) % 2 ^ intSize - 2 ^ (intSize - 1)

/-- Size in bytes of a `string` value, two machine words: a pointer and a
length. -/
def stringSize (intSize : Nat) : Nat :=
  2 * (intSize / 8)

/-! ## Library layer: `net/http`, `net/url`, `goquery` -/

/-- The two fields of a parsed `*url.URL` that `main.go` reads. -/
structure URL where
  Scheme : String
  Host : String
  deriving DecidableEq, Repr

/-- What the platform and the pure library functions contribute: the width of
`int` and of `uintptr` (`strconv.IntSize`, 32 or 64), the largest number of
bytes of one allocation (`runtime.maxAlloc`, `1 << 48` on linux/amd64), and
`url.Parse`. -/
structure Env where
  intSize : Nat
  maxAlloc : Nat
  urlParse : String → Except Error URL

/-- Go `make([]string, n)`: `runtime.makeslice` panics when `n` is negative,
when `n` times the size of a `string` overflows `uintptr`, or when that product
exceeds `maxAlloc`; otherwise the slice holds `n` empty strings. -/
def makeStrings (env : Env) (n : Int) : Run (List String) :=
  if n < 0 ∨ n.toNat * stringSize env.intSize ≥ 2 ^ env.intSize ∨
      n.toNat * stringSize env.intSize > env.maxAlloc then
    .panic "makeslice: len out of range"
  else .done (List.replicate n.toNat "")

/-- An anchor matched by `.conjuntos-series a`, seen through the queries of the
callback of `getSeries`.  A field is `none` when the nested element (or the
attribute) is absent; `Selection.Text` of an absent element is `""`. -/
structure CatalogEntry where
  /-- Attribute `src` of the first nested `img`. -/
  imgSrc : Option String
  /-- Text of the first `.informacion-serie div p.nombre-serie`. -/
  name : Option String
  /-- Text of the first `.informacion-serie div span.marcador-cartoon`. -/
  marker : Option String
  /-- Text of the first `.informacion-serie div span.marcador-ano`. -/
  year : Option String
  /-- Text of the first `.informacion-serie div span.valoracion`. -/
  rate : Option String
  /-- The anchor's own `href`. -/
  href : Option String
  deriving DecidableEq, Repr

/-- An anchor matched by `li a` inside an episode-list container. -/
structure EpisodeAnchor where
  text : String
  href : Option String
  deriving DecidableEq, Repr

/-- A parsed document, represented by the matches of the selectors of
`main.go`, each list in document order. -/
structure Document where
  /-- Result of `Selection.Html` for every match of
  `.paginacion-all-series ul.pagination nav ul.pagination li:nth-last-child(2) a`. -/
  pagination : List (Except Error String)
  /-- The matches of `.conjuntos-series a`. -/
  catalog : List CatalogEntry
  /-- Result of `Selection.Text` for every match of
  `.contenedor-episondios h4.estilo-temporada`. -/
  seasonHeadings : List String
  /-- For every match of `.contenedor-episondios h4.estilo-temporada + div ul`,
  its matches of `li a`. -/
  episodeLists : List (List EpisodeAnchor)
  /-- Attribute `src` of the first match of `.container iframe`. -/
  iframeSrc : Option String

/-- An HTTP response: its status code and the result of
`goquery.NewDocumentFromReader` on its body. -/
structure Response where
  StatusCode : Int
  Body : Except Error Document

/-- The network: the answer to a GET of an address, given the requests issued
before it. -/
abbrev World := List String → String → Except Error Response

/-- Go `http.Get(url)`: the answer of the network, and the request recorded. -/
def httpGet (w : World) (url : String) (log : List String) :
    Except Error Response × List String :=
  (w log url, log ++ [url])

/-- Result of `Selection.Text` on the first match of a nested query. -/
def textOf (el : Option String) : String :=
  el.getD ""

/-- The loop of goquery `Selection.Each`: the callback receives the index and
the element; no way to stop early. -/
def eachFrom {α σ : Type} (f : Nat → α → σ → σ) : Nat → List α → σ → σ
  | _, [], st => st
  | i, x :: xs, st => eachFrom f (i + 1) xs (f i x st)

/-- The goquery `Selection.Each`. -/
def Each {α σ : Type} (f : Nat → α → σ → σ) (nodes : List α) (st : σ) : σ :=
  eachFrom f 0 nodes st

/-- The loop of goquery `Selection.EachWithBreak`: stops when the callback
returns `false`. -/
def eachWithBreakFrom {α σ : Type} (f : Nat → α → σ → σ × Bool) : Nat → List α → σ → σ
  | _, [], st => st
  | i, x :: xs, st =>
    match f i x st with
    | (st', true) => eachWithBreakFrom f (i + 1) xs st'
    | (st', false) => st'

/-- The goquery `Selection.EachWithBreak`. -/
def EachWithBreak {α σ : Type} (f : Nat → α → σ → σ × Bool) (nodes : List α) (st : σ) : σ :=
  eachWithBreakFrom f 0 nodes st

/-- The loop of `Selection.Each` for a callback that may panic: a panic of the
callback ends the iteration and propagates. -/
def eachRunFrom {α σ : Type} (f : Nat → α → σ → Run σ) : Nat → List α → σ → Run σ
  | _, [], st => .done st
  | i, x :: xs, st =>
    match f i x st with
    | .panic msg => .panic msg
    | .done st' => eachRunFrom f (i + 1) xs st'

/-- The goquery `Selection.Each` for a callback that may panic. -/
def EachRun {α σ : Type} (f : Nat → α → σ → Run σ) (nodes : List α) (st : σ) : Run σ :=
  eachRunFrom f 0 nodes st

/-! ## Data model of `main.go` -/

structure Episode where
  Name : String
  InternalUrl : String
  ExternalUrl : String
  Chapter : Int
  deriving DecidableEq, Repr

structure Season where
  Name : String
  Episodes : List Episode
  deriving DecidableEq, Repr

structure TVShow where
  Name : String
  Marker : String
  Url : String
  ImageUrl : String
  Year : Int
  Rate : Int
  Seasons : List Season
  deriving DecidableEq, Repr

/-! ## `getLastPage` and `getAllSeriesUrls` -/

/-- The callback of `getLastPage`: on a failure of `Html` nothing is assigned;
otherwise `lastPage, retErr = strconv.Atoi(html)`.  Both branches
`return true`. -/
def getLastPage.callback (env : Env) (_i : Nat) (s : Except Error String)
    (st : Int × Option Error) : (Int × Option Error) × Bool :=
  match s with
  | .error _ => (st, true)
  | .ok html => (Atoi env.intSize html, true)

/-- The function `getLastPage` of `main.go`. -/
def getLastPage (env : Env) (w : World) (url : String) (log : List String) :
    (Int × Option Error) × List String :=
  match httpGet w url log with
  | (.error err, log) => ((0, some err), log)
  | (.ok res, log) =>
    if res.StatusCode ≠ 200 then ((0, some (.status res.StatusCode)), log)
    else
      match res.Body with
      | .error err => ((0, some err), log)
      | .ok doc => (EachWithBreak (getLastPage.callback env) doc.pagination (0, none), log)

/-- The loop `for page := 1; page <= lastPage; page++` of `getAllSeriesUrls`,
from the value `page` of the counter: while `page <= lastPage` it assigns
`urls[page-1]` and increments `page`, both computed in `int`.  The first
argument bounds the number of iterations, to make the definition structural;
`getAllSeriesUrls` passes `len(urls) + 1`, which the loop never uses up on a
32- or 64-bit platform (`getAllSeriesUrls_returns_or_make_panics`). -/
def getAllSeriesUrls.loop (env : Env) (url : String) (lastPage : Int) :
    Nat → Int → List String → Run (List String)
  | 0, _, _ => .panic "iteration bound exceeded"
  | fuel + 1, page, urls =>
    if page ≤ lastPage then
      match setIndex urls (wrapInt env.intSize (page - 1)) (sprintfPage url page) with
      | .panic msg => .panic msg
      | .done urls' =>
        getAllSeriesUrls.loop env url lastPage fuel (wrapInt env.intSize (page + 1)) urls'
    else .done urls

/-- The function `getAllSeriesUrls` of `main.go`. -/
def getAllSeriesUrls (env : Env) (w : World) (url : String) (log : List String) :
    Run ((List String × Option Error) × List String) :=
  match getLastPage env w url log with
  | ((_, some err), log) => .done (([], some err), log)
  | ((lastPage, none), log) =>
    match makeStrings env lastPage with
    | .panic msg => .panic msg
    | .done urls =>
      match getAllSeriesUrls.loop env url lastPage (urls.length + 1) 1 urls with
      | .panic msg => .panic msg
      | .done urls => .done ((urls, none), log)

/-! ## `getSeries` and `getSeriesPerPage` -/

/-- The fields that the callback of `getSeries` assigns to a fresh `TVShow`
before it looks at the `href` of the anchor: `ImageUrl` when the first nested
`img` has a `src`, `Name`, `Marker` trimmed of spaces, newlines and tabs, and
`Year` and `Rate` as the value returned by `strconv.Atoi`, its error
discarded. -/
def getSeries.fields (env : Env) (url : URL) (s : CatalogEntry) : TVShow :=
  { Name := textOf s.name,
    Marker := Trim (textOf s.marker) " \n\t",
    Url := "",
    ImageUrl :=
      match s.imgSrc with
      | some src => sprintfUrl url.Scheme url.Host src
      | none => "",
    Year := (Atoi env.intSize (textOf s.year)).1,
    Rate := (Atoi env.intSize (textOf s.rate)).1,
    Seasons := [] }

/-- The callback of `getSeries`: builds a `TVShow` from one catalog anchor and,
when the anchor has an `href`, sets `Url` and appends the show. -/
def getSeries.callback (env : Env) (url : URL) (_i : Nat) (s : CatalogEntry)
    (tvShows : List TVShow) : List TVShow :=
  let tvShow := getSeries.fields env url s
  match s.href with
  | some showURL => tvShows ++ [{ tvShow with Url := sprintfUrl url.Scheme url.Host showURL }]
  | none => tvShows

/-- The function `getSeries` of `main.go`. -/
def getSeries (env : Env) (w : World) (rawUrl : String) (log : List String) :
    (List TVShow × Option Error) × List String :=
  match httpGet w rawUrl log with
  | (.error err, log) => (([], some err), log)
  | (.ok res, log) =>
    if res.StatusCode ≠ 200 then (([], some (.status res.StatusCode)), log)
    else
      match env.urlParse rawUrl with
      | .error err => (([], some err), log)
      | .ok url =>
        match res.Body with
        | .error err => (([], some err), log)
        | .ok doc => ((Each (getSeries.callback env url) doc.catalog [], none), log)

/-- The loop `for _, url := range urls` of `getSeriesPerPage`. -/
def getSeriesPerPage.loop (env : Env) (w : World) :
    List String → List TVShow → List String → (List TVShow × Option Error) × List String
  | [], tvShows, log => ((tvShows, none), log)
  | url :: rest, tvShows, log =>
    match getSeries env w url log with
    | ((_, some err), log) => (([], some err), log)
    | ((series, none), log) => getSeriesPerPage.loop env w rest (tvShows ++ series) log

/-- The function `getSeriesPerPage` of `main.go`. -/
def getSeriesPerPage (env : Env) (w : World) (urls : List String) (log : List String) :
    (List TVShow × Option Error) × List String :=
  getSeriesPerPage.loop env w urls [] log

/-! ## `getEpisodeExternalUrl` and `getEpisodesByShow` -/

/-- The function `getEpisodeExternalUrl` of `main.go`. -/
def getEpisodeExternalUrl (w : World) (internalUrl : String) (log : List String) :
    (String × Option Error) × List String :=
  match httpGet w internalUrl log with
  | (.error err, log) => (("", some err), log)
  | (.ok res, log) =>
    if res.StatusCode ≠ 200 then (("", some (.status res.StatusCode)), log)
    else
      match res.Body with
      | .error err => (("", some err), log)
      | .ok doc => ((doc.iframeSrc.getD "", none), log)

/-- The variables the two nested callbacks of `getEpisodesByShow` share:
`seasons`, `retErr`, and the requests issued so far. -/
structure EpState where
  seasons : List Season
  retErr : Option Error
  log : List String
  deriving DecidableEq, Repr

/-- The inner callback of `getEpisodesByShow`, for the anchor `s1` at position
`episodeIndex` of the container at position `seasonIndex`.  On a failure of
`getEpisodeExternalUrl` it sets `retErr` and returns from the callback;
otherwise it appends the episode to `seasons[seasonIndex]`, which panics when
the index is out of range. -/
def getEpisodesByShow.episode (w : World) (url : URL) (seasonIndex episodeIndex : Nat)
    (s1 : EpisodeAnchor) (st : EpState) : Run EpState :=
  let episodeName := Trim s1.text " \t\n"
  let episodePath := s1.href.getD ""
  let internalUrl := sprintfUrl url.Scheme url.Host episodePath
  match getEpisodeExternalUrl w internalUrl st.log with
  | ((_, some err), log) => .done { st with retErr := some err, log := log }
  | ((externalUrl, none), log) =>
    match st.seasons[seasonIndex]? with
    | none => .panic "index out of range"
    | some season =>
      let episode : Episode :=
        { Chapter := (episodeIndex : Int) + 1, Name := episodeName,
          InternalUrl := internalUrl, ExternalUrl := externalUrl }
      .done { seasons := st.seasons.set seasonIndex
                { season with Episodes := season.Episodes ++ [episode] },
              retErr := st.retErr, log := log }

/-- The outer callback of `getEpisodesByShow`, for the container at position
`seasonIndex`. -/
def getEpisodesByShow.container (w : World) (url : URL) (seasonIndex : Nat)
    (s : List EpisodeAnchor) (st : EpState) : Run EpState :=
  EachRun (getEpisodesByShow.episode w url seasonIndex) s st

/-- The first pass of `getEpisodesByShow`: one empty `Season` per heading. -/
def getEpisodesByShow.heading (_i : Nat) (s : String) (seasons : List Season) : List Season :=
  seasons ++ [{ Name := Trim s " \t\n", Episodes := [] }]

/-- The function `getEpisodesByShow` of `main.go`. -/
def getEpisodesByShow (env : Env) (w : World) (tvShow : TVShow) (baseUrl : String)
    (log : List String) : Run ((List Season × Option Error) × List String) :=
  match httpGet w tvShow.Url log with
  | (.error err, log) => .done (([], some err), log)
  | (.ok res, log) =>
    if res.StatusCode ≠ 200 then .done (([], some (.status res.StatusCode)), log)
    else
      match env.urlParse baseUrl with
      | .error err => .done (([], some err), log)
      | .ok url =>
        match res.Body with
        | .error err => .done (([], some err), log)
        | .ok doc =>
          let seasons := Each getEpisodesByShow.heading doc.seasonHeadings []
          match EachRun (getEpisodesByShow.container w url) doc.episodeLists
              { seasons := seasons, retErr := none, log := log } with
          | .panic msg => .panic msg
          | .done st => .done ((st.seasons, st.retErr), st.log)

/-! ## Vocabulary for the run of `getEpisodesByShow`

The definitions of this section are not part of `main.go`: they name what the
statements about `getEpisodesByShow` talk about (which request an anchor leads
to, what was requested before it, what the resolver answered). -/

/-- The address that the inner callback of `getEpisodesByShow` builds and
requests for an anchor: the base scheme and host followed by the `href`. -/
def internalUrlOf (url : URL) (s1 : EpisodeAnchor) : String :=
  url.Scheme ++ "://" ++ url.Host ++ s1.href.getD ""

/-- The addresses of the anchors that precede, in document order, the anchor at
position `j` of the container at position `i`: all the anchors of the
containers before `i`, then the first `j` anchors of container `i`. -/
def requestsBefore (url : URL) (lists : List (List EpisodeAnchor)) (i j : Nat) : List String :=
  ((lists.take i).flatten ++ (lists.getD i []).take j).map (internalUrlOf url)

/-- The result of `getEpisodeExternalUrl` for the anchor `s1` at position `j` of
the container at position `i`, when the requests recorded before the first
anchor are `log` and every anchor before `s1` has been requested. -/
def outcomeAt (w : World) (url : URL) (lists : List (List EpisodeAnchor)) (log : List String)
    (i j : Nat) (s1 : EpisodeAnchor) : String × Option Error :=
  (getEpisodeExternalUrl w (internalUrlOf url s1) (log ++ requestsBefore url lists i j)).1

/-- The `Episode` that the inner callback appends for the anchor `s1` at
position `j` of its container when the resolver returned `externalUrl`. -/
def episodeOf (url : URL) (j : Nat) (s1 : EpisodeAnchor) (externalUrl : String) : Episode :=
  { Chapter := (j : Int) + 1, Name := Trim s1.text " \t\n",
    InternalUrl := internalUrlOf url s1, ExternalUrl := externalUrl }

/-- The results of `getEpisodeExternalUrl` for a list of addresses requested
one after the other. -/
def resolveAll (w : World) : List String → List String → List (String × Option Error)
  | [], _ => []
  | u :: us, log => (getEpisodeExternalUrl w u log).1 :: resolveAll w us (log ++ [u])

/-- The results of `getEpisodeExternalUrl` for the anchors of a list of
containers, requested one after the other in document order. -/
def resolveLists (w : World) (url : URL) :
    List (List EpisodeAnchor) → List String → List (List (String × Option Error))
  | [], _ => []
  | s :: rest, log =>
    resolveAll w (s.map (internalUrlOf url)) log ::
      resolveLists w url rest (log ++ s.map (internalUrlOf url))

/-- The episodes of the anchors whose result carries no error, the anchors
being numbered from `j`. -/
def kept (url : URL) : Nat → List EpisodeAnchor → List (String × Option Error) → List Episode
  | j, s1 :: s, (externalUrl, none) :: outs => episodeOf url j s1 externalUrl :: kept url (j + 1) s outs
  | j, _ :: s, (_, some _) :: outs => kept url (j + 1) s outs
  | _, _, _ => []

/-- The error of the last result that carries one, `e` when none does. -/
def lastError : List (String × Option Error) → Option Error → Option Error
  | [], e => e
  | (_, some err) :: outs, _ => lastError outs (some err)
  | (_, none) :: outs, e => lastError outs e

/-- The list `seasons` with `eps` appended to the episodes of the season at
position `i`, unchanged when there is no such season. -/
def attach (eps : List Episode) : Nat → List Season → List Season
  | _, [] => []
  | 0, season :: rest => { season with Episodes := season.Episodes ++ eps } :: rest
  | i + 1, season :: rest => season :: attach eps i rest

/-- The list `seasons` with the lists of `epss` appended to the seasons at
positions `i`, `i + 1`, ... -/
def attachFrom : Nat → List (List Episode) → List Season → List Season
  | _, [], seasons => seasons
  | i, eps :: rest, seasons => attachFrom (i + 1) rest (attach eps i seasons)

/-- Whether every non-empty list of `epss`, the lists counted from `i`, has a
position below `n`. -/
def fits : Nat → List (List Episode) → Nat → Bool
  | _, [], _ => true
  | i, eps :: rest, n => (decide (i < n) || eps.isEmpty) && fits (i + 1) rest n

/-! ## Concrete pages -/

/-- A 64-bit platform with the allocation limit of linux/amd64, on which every
address parses to scheme `https` and host `lacartoons.test`. -/
def env64 : Env :=
  { intSize := 64, maxAlloc := 2 ^ 48,
    urlParse := fun _ => .ok { Scheme := "https", Host := "lacartoons.test" } }

/-- A document on which no selector of `main.go` matches. -/
def emptyDoc : Document :=
  { pagination := [], catalog := [], seasonHeadings := [], episodeLists := [], iframeSrc := none }

/-- A network that answers every request with status 200 and the given
document. -/
def serve (doc : Document) : World :=
  fun _ _ => .ok { StatusCode := 200, Body := .ok doc }

/-- A root page whose pagination selector matches one anchor, with content
`3`. -/
def threePagesDoc : Document :=
  { emptyDoc with pagination := [.ok "3"] }

/-- A root page whose pagination selector matches one anchor, with content
`9223372036854775807`, the largest 64-bit `int`. -/
def hugePagesDoc : Document :=
  { emptyDoc with pagination := [.ok "9223372036854775807"] }

/-- A root page whose pagination selector matches two anchors, the first with
content `x` and the second with content `7`, as in
`<li><a>x</a><a>7</a></li>` for the second-to-last item. -/
def twoAnchorsDoc : Document :=
  { emptyDoc with pagination := [.ok "x", .ok "7"] }

/-- A catalog page with two entry anchors: the first complete but for its
`href`, the second with an `href` and nothing else. -/
def catalogDoc : Document :=
  { emptyDoc with
    catalog :=
      [ { imgSrc := some "/a.png", name := some "Alpha", marker := some " TV ",
          year := some "1999", rate := some "4", href := none },
        { imgSrc := none, name := none, marker := none, year := none, rate := none,
          href := some "/serie/2" } ] }

/-- A catalog page with one entry anchor whose year text is the digit string
`9223372036854775808`, one more than the largest 64-bit `int`. -/
def bigYearDoc : Document :=
  { emptyDoc with
    catalog :=
      [ { imgSrc := none, name := some "Alpha", marker := some "TV",
          year := some "9223372036854775808", rate := some "4", href := some "/serie/1" } ] }

/-- A catalog page with one complete entry anchor. -/
def oneShowDoc : Document :=
  { emptyDoc with
    catalog :=
      [ { imgSrc := some "/a.png", name := some "Alpha", marker := some " TV ",
          year := some "1999", rate := some "4", href := some "/serie/1" } ] }

/-- A show of the catalog, as `getSeries` returns it. -/
def alpha : TVShow :=
  { Name := "Alpha", Marker := "TV", Url := "https://lacartoons.test/serie/1",
    ImageUrl := "https://lacartoons.test/a.png", Year := 1999, Rate := 4, Seasons := [] }

/-- An episode page whose `.container iframe` has a `src`. -/
def episodeDoc : Document :=
  { emptyDoc with iframeSrc := some "https://video.test/v" }

/-- A show page with two season headings and one episode-list container, of two
anchors. -/
def twoHeadingsDoc : Document :=
  { emptyDoc with
    seasonHeadings := [" Temporada 1 ", "Temporada 2\n"],
    episodeLists := [[{ text := " Uno ", href := some "/e/1" }, { text := "Dos", href := some "/e/2" }]] }

/-- A show page with one season heading and one container of three anchors. -/
def threeEpisodesDoc : Document :=
  { emptyDoc with
    seasonHeadings := ["Temporada 1"],
    episodeLists :=
      [[{ text := "Uno", href := some "/e/1" }, { text := "Dos", href := some "/e/2" },
        { text := "Tres", href := some "/e/3" }]] }

/-- A show page with one season heading followed by a `div` that holds two
lists, as in
`<h4 class="estilo-temporada">Temporada 1</h4><div><ul><li><a href="/e/1">Uno</a></li></ul><ul><li><a href="/e/2">Dos</a></li></ul></div>`:
the container selector matches both `ul`. -/
def twoListsDoc : Document :=
  { emptyDoc with
    seasonHeadings := ["Temporada 1"],
    episodeLists := [[{ text := "Uno", href := some "/e/1" }], [{ text := "Dos", href := some "/e/2" }]] }

/-- A network on which the address of `alpha` is the given show page and every
other address is an episode page, all with status 200. -/
def site (showDoc : Document) : World :=
  fun _ url =>
    if url = "https://lacartoons.test/serie/1" then .ok { StatusCode := 200, Body := .ok showDoc }
    else .ok { StatusCode := 200, Body := .ok episodeDoc }

/-- A network like `site threeEpisodesDoc`, except that the first episode
answers with status 500 and the third with status 404. -/
def flakySite : World :=
  fun _ url =>
    if url = "https://lacartoons.test/serie/1" then
      .ok { StatusCode := 200, Body := .ok threeEpisodesDoc }
    else if url = "https://lacartoons.test/e/1" then .ok { StatusCode := 500, Body := .ok emptyDoc }
    else if url = "https://lacartoons.test/e/3" then .ok { StatusCode := 404, Body := .ok emptyDoc }
    else .ok { StatusCode := 200, Body := .ok episodeDoc }

/-- A network on which the address `/ok` (whenever requested) is a catalog page
with one show and every other address answers with status 404. -/
def okThen404 : World :=
  fun _ url =>
    if url = "/ok" then .ok { StatusCode := 200, Body := .ok oneShowDoc }
    else .ok { StatusCode := 404, Body := .ok emptyDoc }


/-! ## Pagination -/

theorem httpGet_log (w : World) (url : String) (log : List String) :
    (httpGet w url log).2 = log ++ [url] := rfl

/-- C7: when the root page is fetched with status 200 and parsed, and the
pagination selector matches no element, `getLastPage` returns page number 0
with a nil error. -/
theorem getLastPage_no_match (env : Env) (w : World) (url : String) (log : List String)
    (res : Response) (doc : Document)
    (hget : w log url = .ok res) (hstatus : res.StatusCode = 200)
    (hbody : res.Body = .ok doc) (hsel : doc.pagination = []) :
    getLastPage env w url log = ((0, none), log ++ [url]) := by
  simp [getLastPage, httpGet, hget, hstatus, hbody, hsel, EachWithBreak, eachWithBreakFrom]

theorem getLastPage_no_match_witness :
    getLastPage env64 (serve emptyDoc) "https://lacartoons.test" [] =
      ((0, none), ["https://lacartoons.test"]) :=
  getLastPage_no_match env64 (serve emptyDoc) "https://lacartoons.test" []
    { StatusCode := 200, Body := .ok emptyDoc } emptyDoc rfl rfl rfl rfl

/-- C6: on a root page whose pagination selector matches two anchors, the first
with the non-numeric content `x` and the second with content `7`, the callback
does not stop after the first match: `getLastPage` returns page number 7 with a
nil error, although `strconv.Atoi` rejects the content of the first match. -/
theorem getLastPage_visits_every_match :
    (Atoi env64.intSize "x").2 = some (.numSyntax "x") ∧
    getLastPage env64 (serve twoAnchorsDoc) "https://lacartoons.test" [] =
      ((7, none), ["https://lacartoons.test"]) := by
  decide

/-- With a single match of the pagination selector whose content is rendered,
`getLastPage` returns what `strconv.Atoi` returns for that content. -/
theorem getLastPage_single_match (env : Env) (w : World) (url : String) (log : List String)
    (res : Response) (doc : Document) (html : String)
    (hget : w log url = .ok res) (hstatus : res.StatusCode = 200)
    (hbody : res.Body = .ok doc) (hsel : doc.pagination = [.ok html]) :
    getLastPage env w url log = (Atoi env.intSize html, log ++ [url]) := by
  simp [getLastPage, httpGet, hget, hstatus, hbody, hsel, EachWithBreak, eachWithBreakFrom,
    getLastPage.callback]

theorem getLastPage_log (env : Env) (w : World) (url : String) (log : List String) :
    (getLastPage env w url log).2 = log ++ [url] := by
  unfold getLastPage httpGet
  cases w log url with
  | error err => rfl
  | ok res =>
    by_cases hs : res.StatusCode = 200
    · cases hb : res.Body <;> simp [hs, hb]
    · simp [hs]

/-! ## Page addresses -/

theorem wrapInt_of_range (intSize : Nat) (x : Int) (hw : 1 ≤ intSize)
    (hlo : -(2 ^ (intSize - 1) : Int) ≤ x) (hhi : x < 2 ^ (intSize - 1)) :
    wrapInt intSize x = x := by
  have hpow : (2 : Int) ^ intSize = 2 * 2 ^ (intSize - 1) := by
    conv_lhs => rw [show intSize = (intSize - 1) + 1 by omega]
    rw [pow_succ]
    ring
  unfold wrapInt
  rw [Int.emod_eq_of_lt (by omega) (by omega)]
  omega

theorem getAllSeriesUrls_loop_fill (env : Env) (url : String) (lastPage : Int)
    (hw : 1 ≤ env.intSize) :
    ∀ (m : Nat) (pre : List String) (fuel : Nat), m < fuel →
      lastPage = ((pre.length + m : Nat) : Int) →
      ((pre.length + m + 1 : Nat) : Int) < 2 ^ (env.intSize - 1) →
      getAllSeriesUrls.loop env url lastPage fuel ((pre.length + 1 : Nat) : Int)
          (pre ++ List.replicate m "") =
        .done (pre ++
          (List.range' (pre.length + 1) m).map (fun N : Nat => sprintfPage url (N : Int))) := by
  intro m
  induction m with
  | zero =>
    intro pre fuel hfuel hlast _
    obtain ⟨fuel, rfl⟩ : ∃ f, fuel = f + 1 := ⟨fuel - 1, by omega⟩
    have hgt : ¬ (((pre.length + 1 : Nat) : Int) ≤ lastPage) := by
      rw [hlast]; push_cast; omega
    rw [getAllSeriesUrls.loop, if_neg hgt]
    simp
  | succ m ih =>
    intro pre fuel hfuel hlast hbound
    obtain ⟨fuel, rfl⟩ : ∃ f, fuel = f + 1 := ⟨fuel - 1, by omega⟩
    have hp : (0 : Int) < 2 ^ (env.intSize - 1) := by positivity
    have hle : ((pre.length + 1 : Nat) : Int) ≤ lastPage := by
      rw [hlast]; push_cast; omega
    have hidx : wrapInt env.intSize (((pre.length + 1 : Nat) : Int) - 1) =
        ((pre.length : Nat) : Int) := by
      rw [wrapInt_of_range _ _ hw (by push_cast at hbound ⊢; omega)
        (by push_cast at hbound ⊢; omega)]
      push_cast; omega
    have hnext : wrapInt env.intSize (((pre.length + 1 : Nat) : Int) + 1) =
        (((pre ++ [sprintfPage url ((pre.length + 1 : Nat) : Int)]).length + 1 : Nat) : Int) := by
      rw [wrapInt_of_range _ _ hw (by push_cast at hbound ⊢; omega)
        (by push_cast at hbound ⊢; omega)]
      simp
    have hset : setIndex (pre ++ List.replicate (m + 1) "") ((pre.length : Nat) : Int)
        (sprintfPage url ((pre.length + 1 : Nat) : Int)) =
        .done ((pre ++ [sprintfPage url ((pre.length + 1 : Nat) : Int)]) ++
          List.replicate m "") := by
      unfold setIndex
      have hlt : (0 : Int) ≤ (pre.length : Int) ∧
          (pre.length : Int) < ((pre ++ List.replicate (m + 1) "").length : Int) := by
        constructor
        · exact Int.ofNat_nonneg _
        · simp
      rw [if_pos hlt]
      simp [List.replicate_succ]
    have hih := ih (pre ++ [sprintfPage url ((pre.length + 1 : Nat) : Int)]) fuel (by omega)
      (by rw [hlast]; simp; omega) (by simp only [List.length_append, List.length_singleton];
                                       have := hbound; push_cast at this ⊢; omega)
    rw [getAllSeriesUrls.loop, if_pos hle, hidx, hset]
    simp only
    rw [hnext, hih]
    simp [List.range'_succ, List.append_assoc]

/-- On a 32- or 64-bit platform, when `getLastPage` returns a page count for
which `make` succeeds, the loop of `getAllSeriesUrls` fills every element and
the function returns. -/
theorem getAllSeriesUrls_done (env : Env) (w : World) (url : String) (log log' : List String)
    (lastPage : Int)
    (hsize : env.intSize = 32 ∨ env.intSize = 64)
    (hlast : getLastPage env w url log = ((lastPage, none), log')) (hpos : 0 ≤ lastPage)
    (hmem : lastPage.toNat * stringSize env.intSize < 2 ^ env.intSize ∧
      lastPage.toNat * stringSize env.intSize ≤ env.maxAlloc) :
    getAllSeriesUrls env w url log =
      .done (((List.range' 1 lastPage.toNat).map (fun N : Nat => sprintfPage url (N : Int)),
        none), log') := by
  have hmake : makeStrings env lastPage = .done (List.replicate lastPage.toNat "") := by
    unfold makeStrings
    rw [if_neg]
    rintro (h | h | h) <;> omega
  have hw : 1 ≤ env.intSize := by rcases hsize with h | h <;> omega
  have hbound : (((([] : List String).length + lastPage.toNat + 1 : Nat)) : Int) <
      2 ^ (env.intSize - 1) := by
    have h1 := hmem.1
    rcases hsize with h | h
    · rw [h] at h1 ⊢
      simp only [stringSize] at h1
      norm_num at h1 ⊢
      omega
    · rw [h] at h1 ⊢
      simp only [stringSize] at h1
      norm_num at h1 ⊢
      omega
  have h := getAllSeriesUrls_loop_fill env url lastPage hw lastPage.toNat []
    (lastPage.toNat + 1) (by omega) (by simp [Int.toNat_of_nonneg hpos]) hbound
  simp only [List.length_nil, List.nil_append, Nat.zero_add, Nat.cast_one] at h
  simp [getAllSeriesUrls, hlast, hmake, h]

/-- On a 32- or 64-bit platform `getAllSeriesUrls` either returns or panics in
`make`: the loop never runs out of its iteration bound and never assigns out of
range. -/
theorem getAllSeriesUrls_returns_or_make_panics (env : Env) (w : World) (url : String)
    (log : List String) (hsize : env.intSize = 32 ∨ env.intSize = 64) :
    (∃ (urls : List String) (err : Option Error) (log' : List String),
      getAllSeriesUrls env w url log = .done ((urls, err), log')) ∨
    getAllSeriesUrls env w url log = .panic "makeslice: len out of range" := by
  rcases hlast : getLastPage env w url log with ⟨⟨lastPage, e⟩, log'⟩
  cases e with
  | some err => exact Or.inl ⟨[], some err, log', by simp [getAllSeriesUrls, hlast]⟩
  | none =>
    by_cases hc : lastPage < 0 ∨ lastPage.toNat * stringSize env.intSize ≥ 2 ^ env.intSize ∨
        lastPage.toNat * stringSize env.intSize > env.maxAlloc
    · right
      simp only [getAllSeriesUrls, hlast, makeStrings, if_pos hc]
    · left
      simp only [not_or, not_lt, ge_iff_le, gt_iff_lt, not_le] at hc
      exact ⟨_, _, _, getAllSeriesUrls_done env w url log log' lastPage hsize hlast hc.1
        ⟨hc.2.1, hc.2.2⟩⟩

/-- The refusals of `make([]string, n)` on linux/amd64: a negative length, and
a length above `2^44`, where `n` times 16 bytes exceeds `1 << 48`. -/
theorem makeStrings_refuses :
    makeStrings env64 (-1) = .panic "makeslice: len out of range" ∧
    makeStrings env64 17592186044417 = .panic "makeslice: len out of range" ∧
    makeStrings env64 9223372036854775807 = .panic "makeslice: len out of range" ∧
    makeStrings env64 2 = .done ["", ""] := by
  decide

/-- C5: when `getLastPage` returns, with a nil error, a page count
`lastPage >= 0` for which `make([]string, lastPage)` is within what the runtime
allocates (`lastPage` times the size of a `string` neither overflows `uintptr`
nor exceeds the allocation limit, on a 32- or 64-bit platform),
`getAllSeriesUrls` returns with a nil error a list of exactly `lastPage`
addresses whose N-th element, for N from 1 to `lastPage`, is the root followed
by `/?page=` and the decimal form of N; for `lastPage = 0` the list is
empty. -/
theorem getAllSeriesUrls_pages (env : Env) (w : World) (url : String) (log log' : List String)
    (lastPage : Int)
    (hsize : env.intSize = 32 ∨ env.intSize = 64)
    (hlast : getLastPage env w url log = ((lastPage, none), log')) (hpos : 0 ≤ lastPage)
    (hmem : lastPage.toNat * stringSize env.intSize < 2 ^ env.intSize ∧
      lastPage.toNat * stringSize env.intSize ≤ env.maxAlloc) :
    ∃ urls : List String,
      getAllSeriesUrls env w url log = .done ((urls, none), log') ∧
      (urls.length : Int) = lastPage ∧
      (∀ N : Nat, 1 ≤ N → (N : Int) ≤ lastPage →
        urls[N - 1]? = some (url ++ "/?page=" ++ Nat.repr N)) ∧
      (lastPage = 0 → urls = []) := by
  refine ⟨(List.range' 1 lastPage.toNat).map (fun N : Nat => sprintfPage url (N : Int)),
    getAllSeriesUrls_done env w url log log' lastPage hsize hlast hpos hmem, ?_, ?_, ?_⟩
  · simp [Int.toNat_of_nonneg hpos]
  · intro N h1 hN
    have hlt : N - 1 < lastPage.toNat := by omega
    rw [List.getElem?_map, List.getElem?_range' _ _ hlt]
    have hN' : 1 + 1 * (N - 1) = N := by omega
    simp only [hN', Option.map_some']
    rfl
  · intro h0
    simp [h0]

theorem getAllSeriesUrls_pages_witness :
    ∃ urls : List String,
      getAllSeriesUrls env64 (serve threePagesDoc) "https://lacartoons.test" [] =
        .done ((urls, none), ["https://lacartoons.test"]) ∧
      (urls.length : Int) = 3 ∧
      (∀ N : Nat, 1 ≤ N → (N : Int) ≤ 3 →
        urls[N - 1]? = some ("https://lacartoons.test" ++ "/?page=" ++ Nat.repr N)) ∧
      ((3 : Int) = 0 → urls = []) :=
  getAllSeriesUrls_pages env64 (serve threePagesDoc) "https://lacartoons.test" []
    ["https://lacartoons.test"] 3 (Or.inr rfl) (by decide) (by decide) (by decide)

/-- C5, as stated, fails: on a root page whose pagination text is
`9223372036854775807`, `getLastPage` returns the page count `2^63 - 1` with a
nil error, and `getAllSeriesUrls` does not return a list of that many
addresses: `make([]string, lastPage)` panics. -/
theorem getAllSeriesUrls_makeslice_panic :
    getLastPage env64 (serve hugePagesDoc) "https://lacartoons.test" [] =
      ((9223372036854775807, none), ["https://lacartoons.test"]) ∧
    getAllSeriesUrls env64 (serve hugePagesDoc) "https://lacartoons.test" [] =
      .panic "makeslice: len out of range" := by
  decide

/-- An evaluation of `getAllSeriesUrls` on a root page with three pages. -/
theorem getAllSeriesUrls_three_pages :
    getAllSeriesUrls env64 (serve threePagesDoc) "https://lacartoons.test" [] =
      .done ((["https://lacartoons.test/?page=1", "https://lacartoons.test/?page=2",
               "https://lacartoons.test/?page=3"], none), ["https://lacartoons.test"]) := by
  decide

/-! ## Catalog pages -/

theorem Atoi_empty (intSize : Nat) : Atoi intSize "" = (0, some (.numSyntax "")) := by
  simp [Atoi, goLen, parseInt]

theorem Trim_empty (cutset : String) : Trim "" cutset = "" := by
  simp [Trim]

theorem getSeries_each (env : Env) (url : URL) (entries : List CatalogEntry) :
    ∀ (i : Nat) (acc : List TVShow),
      eachFrom (getSeries.callback env url) i entries acc =
        acc ++ entries.filterMap (fun s => s.href.map (fun showURL =>
          { getSeries.fields env url s with Url := sprintfUrl url.Scheme url.Host showURL })) := by
  induction entries with
  | nil => intro i acc; simp [eachFrom]
  | cons s rest ih =>
    intro i acc
    rw [eachFrom, ih]
    cases hh : s.href with
    | none => simp [getSeries.callback, hh]
    | some showURL =>
      simp [getSeries.callback, hh, List.filterMap_cons]

theorem getSeries_ok (env : Env) (w : World) (rawUrl : String) (log : List String)
    (res : Response) (url : URL) (doc : Document)
    (hget : w log rawUrl = .ok res) (hstatus : res.StatusCode = 200)
    (hurl : env.urlParse rawUrl = .ok url) (hbody : res.Body = .ok doc) :
    getSeries env w rawUrl log =
      ((doc.catalog.filterMap (fun s => s.href.map (fun showURL =>
          { getSeries.fields env url s with Url := sprintfUrl url.Scheme url.Host showURL })), none),
        log ++ [rawUrl]) := by
  simp [getSeries, httpGet, hget, hstatus, hurl, hbody, Each, getSeries_each]

theorem getSeries_log (env : Env) (w : World) (rawUrl : String) (log : List String) :
    (getSeries env w rawUrl log).2 = log ++ [rawUrl] := by
  unfold getSeries httpGet
  cases w log rawUrl with
  | error err => rfl
  | ok res =>
    by_cases hs : res.StatusCode = 200
    · cases hu : env.urlParse rawUrl <;> cases hb : res.Body <;> simp [hs, hu, hb]
    · simp [hs]

theorem forall₂_filter_filterMap {α β : Type} (R : α → β → Prop) (f : α → Option β)
    (p : α → Bool) (hp : ∀ a, p a = (f a).isSome) (hR : ∀ a b, f a = some b → R a b) :
    ∀ xs : List α, List.Forall₂ R (xs.filter p) (xs.filterMap f) := by
  intro xs
  induction xs with
  | nil => simp
  | cons a rest ih =>
    cases h : f a with
    | none => simpa [List.filter_cons, List.filterMap_cons, h, hp a] using ih
    | some b =>
      simp only [List.filter_cons, List.filterMap_cons, h, hp a, Option.isSome_some, if_true]
      exact List.Forall₂.cons (hR a b h) ih

/-- C3: on a catalog page that is fetched and parsed, `getSeries` returns
exactly one `TVShow` per entry anchor that has an `href`, in document order: the
addresses of the shows are the resolved `href`s of the anchors that have one
(an anchor with no `href` contributes nothing), and the show of an anchor is
built whichever of its other fields are missing, a missing marker, year or
rating giving `""`, `0` and `0`. -/
theorem getSeries_one_show_per_href (env : Env) (w : World) (rawUrl : String)
    (log : List String) (res : Response) (url : URL) (doc : Document)
    (hget : w log rawUrl = .ok res) (hstatus : res.StatusCode = 200)
    (hurl : env.urlParse rawUrl = .ok url) (hbody : res.Body = .ok doc) :
    ∃ shows : List TVShow,
      getSeries env w rawUrl log = ((shows, none), log ++ [rawUrl]) ∧
      shows.map (fun tv => tv.Url) =
        (doc.catalog.filterMap (fun s => s.href)).map
          (fun href => url.Scheme ++ "://" ++ url.Host ++ href) ∧
      List.Forall₂
        (fun (s : CatalogEntry) (tv : TVShow) =>
          tv.Name = textOf s.name ∧
          (s.marker = none → tv.Marker = "") ∧
          (s.year = none → tv.Year = 0) ∧
          (s.rate = none → tv.Rate = 0))
        (doc.catalog.filter (fun s => s.href.isSome)) shows := by
  refine ⟨_, getSeries_ok env w rawUrl log res url doc hget hstatus hurl hbody, ?_, ?_⟩
  · generalize doc.catalog = entries
    induction entries with
    | nil => simp
    | cons s rest ih =>
      cases hh : s.href with
      | none => simpa [List.filterMap_cons, hh] using ih
      | some showURL => simpa [List.filterMap_cons, hh, sprintfUrl] using ih
  · apply forall₂_filter_filterMap
    · intro s; cases s.href <;> rfl
    intro s tv hs
    cases hh : s.href with
    | none => simp [hh] at hs
    | some showURL =>
      simp only [hh, Option.map_some', Option.some.injEq] at hs
      subst hs
      refine ⟨rfl, ?_, ?_, ?_⟩
      · intro hm; simp [getSeries.fields, hm, textOf, Trim_empty]
      · intro hy; simp [getSeries.fields, hy, textOf, Atoi_empty]
      · intro hr; simp [getSeries.fields, hr, textOf, Atoi_empty]

theorem getSeries_one_show_per_href_witness :
    ∃ shows : List TVShow,
      getSeries env64 (serve catalogDoc) "https://lacartoons.test/?page=1" [] =
        ((shows, none), [] ++ ["https://lacartoons.test/?page=1"]) ∧
      shows.map (fun tv => tv.Url) =
        (catalogDoc.catalog.filterMap (fun s => s.href)).map
          (fun href => "https" ++ "://" ++ "lacartoons.test" ++ href) ∧
      List.Forall₂
        (fun (s : CatalogEntry) (tv : TVShow) =>
          tv.Name = textOf s.name ∧
          (s.marker = none → tv.Marker = "") ∧
          (s.year = none → tv.Year = 0) ∧
          (s.rate = none → tv.Rate = 0))
        (catalogDoc.catalog.filter (fun s => s.href.isSome)) shows :=
  getSeries_one_show_per_href env64 (serve catalogDoc) "https://lacartoons.test/?page=1" []
    { StatusCode := 200, Body := .ok catalogDoc }
    { Scheme := "https", Host := "lacartoons.test" } catalogDoc rfl rfl rfl rfl

/-- C4: for a catalog entry whose year text is the digit string
`9223372036854775808`, outside the range of a 64-bit `int`, `strconv.Atoi`
fails with a range error and `getSeries` returns, with a nil error, a `TVShow`
whose `Year` is 9223372036854775807 and not 0. -/
theorem getSeries_year_out_of_range :
    (Atoi env64.intSize "9223372036854775808").2 = some (.numRange "9223372036854775808") ∧
    getSeries env64 (serve bigYearDoc) "https://lacartoons.test/?page=1" [] =
      (([{ Name := "Alpha", Marker := "TV", Url := "https://lacartoons.test/serie/1",
           ImageUrl := "", Year := 9223372036854775807, Rate := 4, Seasons := [] }], none),
        ["https://lacartoons.test/?page=1"]) := by
  decide

/-! ## All catalog pages -/

theorem getSeriesPerPage_loop_cases (env : Env) (w : World) (urls : List String) :
    ∀ (acc : List TVShow) (log : List String),
      (∃ pages : List (List TVShow),
        pages.length = urls.length ∧
        (∀ (i : Nat) (u : String), urls[i]? = some u →
          ∃ series, pages[i]? = some series ∧
            (getSeries env w u (log ++ urls.take i)).1 = (series, none)) ∧
        getSeriesPerPage.loop env w urls acc log = ((acc ++ pages.flatten, none), log ++ urls)) ∨
      (∃ (k : Nat) (failing : String) (err : Error),
        urls[k]? = some failing ∧
        (∀ (i : Nat) (u : String), i < k → urls[i]? = some u →
          ((getSeries env w u (log ++ urls.take i)).1).2 = none) ∧
        ((getSeries env w failing (log ++ urls.take k)).1).2 = some err ∧
        getSeriesPerPage.loop env w urls acc log = (([], some err), log ++ urls.take (k + 1))) := by
  induction urls with
  | nil =>
    intro acc log
    exact Or.inl ⟨[], rfl, by simp, by simp [getSeriesPerPage.loop]⟩
  | cons u rest ih =>
    intro acc log
    have hlog := getSeries_log env w u log
    rcases hres : getSeries env w u log with ⟨⟨series, e⟩, log1⟩
    rw [hres] at hlog
    simp only at hlog
    subst hlog
    cases e with
    | some err =>
      refine Or.inr ⟨0, u, err, by simp, ?_, by simp [hres], ?_⟩
      · intro i v hi; omega
      · simp [getSeriesPerPage.loop, hres]
    | none =>
      rcases ih (acc ++ series) (log ++ [u]) with ⟨pages, hlen, hpages, hrun⟩ | ⟨k, failing, err, hk, hbefore, hfail, hrun⟩
      · refine Or.inl ⟨series :: pages, by simp [hlen], ?_, ?_⟩
        · intro i v hv
          cases i with
          | zero =>
            simp only [List.getElem?_cons_zero, Option.some.injEq] at hv
            subst hv
            exact ⟨series, by simp, by simp [hres]⟩
          | succ i =>
            simp only [List.getElem?_cons_succ] at hv
            obtain ⟨ser, hser, hget⟩ := hpages i v hv
            refine ⟨ser, by simpa using hser, ?_⟩
            simpa [List.append_assoc] using hget
        · simp [getSeriesPerPage.loop, hres, hrun, List.append_assoc]
      · refine Or.inr ⟨k + 1, failing, err, by simpa using hk, ?_, ?_, ?_⟩
        · intro i v hi hv
          cases i with
          | zero =>
            simp only [List.getElem?_cons_zero, Option.some.injEq] at hv
            subst hv
            simp [hres]
          | succ i =>
            simp only [List.getElem?_cons_succ] at hv
            have := hbefore i v (by omega) hv
            simpa [List.append_assoc] using this
        · simpa [List.append_assoc] using hfail
        · simp [getSeriesPerPage.loop, hres, hrun, List.append_assoc]

/-- C8: for every list of catalog page addresses, `getSeriesPerPage` returns
either (a) when `getSeries` succeeds on every page, the concatenation of the
per-page show lists in page order with a nil error, every page having been
fetched, or (b) when `getSeries` fails on some page, the error of the first
failing page together with no show at all, the pages after it not being
fetched.  The page at position `i` is fetched after the pages before it. -/
theorem getSeriesPerPage_all_or_nothing (env : Env) (w : World) (urls : List String)
    (log : List String) :
    (∃ pages : List (List TVShow),
      pages.length = urls.length ∧
      (∀ (i : Nat) (u : String), urls[i]? = some u →
        ∃ series, pages[i]? = some series ∧
          (getSeries env w u (log ++ urls.take i)).1 = (series, none)) ∧
      getSeriesPerPage env w urls log = ((pages.flatten, none), log ++ urls)) ∨
    (∃ (k : Nat) (failing : String) (err : Error),
      urls[k]? = some failing ∧
      (∀ (i : Nat) (u : String), i < k → urls[i]? = some u →
        ((getSeries env w u (log ++ urls.take i)).1).2 = none) ∧
      ((getSeries env w failing (log ++ urls.take k)).1).2 = some err ∧
      getSeriesPerPage env w urls log = (([], some err), log ++ urls.take (k + 1))) := by
  simpa [getSeriesPerPage] using getSeriesPerPage_loop_cases env w urls [] log

theorem getSeriesPerPage_all_or_nothing_witness :
    (∃ pages : List (List TVShow),
      pages.length = ["/ok", "/missing", "/ok"].length ∧
      (∀ (i : Nat) (u : String), ["/ok", "/missing", "/ok"][i]? = some u →
        ∃ series, pages[i]? = some series ∧
          (getSeries env64 okThen404 u ([] ++ ["/ok", "/missing", "/ok"].take i)).1 =
            (series, none)) ∧
      getSeriesPerPage env64 okThen404 ["/ok", "/missing", "/ok"] [] =
        ((pages.flatten, none), [] ++ ["/ok", "/missing", "/ok"])) ∨
    (∃ (k : Nat) (failing : String) (err : Error),
      ["/ok", "/missing", "/ok"][k]? = some failing ∧
      (∀ (i : Nat) (u : String), i < k → ["/ok", "/missing", "/ok"][i]? = some u →
        ((getSeries env64 okThen404 u ([] ++ ["/ok", "/missing", "/ok"].take i)).1).2 = none) ∧
      ((getSeries env64 okThen404 failing ([] ++ ["/ok", "/missing", "/ok"].take k)).1).2 =
        some err ∧
      getSeriesPerPage env64 okThen404 ["/ok", "/missing", "/ok"] [] =
        (([], some err), [] ++ ["/ok", "/missing", "/ok"].take (k + 1))) :=
  getSeriesPerPage_all_or_nothing env64 okThen404 ["/ok", "/missing", "/ok"] []

/-- On three page addresses of which the second answers with status 404,
`getSeriesPerPage` returns that error with no show and does not request the
third. -/
theorem getSeriesPerPage_stops_at_404 :
    getSeriesPerPage env64 okThen404 ["/ok", "/missing", "/ok"] [] =
      (([], some (.status 404)), ["/ok", "/missing"]) := by
  decide

/-! ## The two loops of `getEpisodesByShow` -/

theorem getEpisodeExternalUrl_log (w : World) (internalUrl : String) (log : List String) :
    (getEpisodeExternalUrl w internalUrl log).2 = log ++ [internalUrl] := by
  unfold getEpisodeExternalUrl httpGet
  cases w log internalUrl with
  | error err => rfl
  | ok res =>
    by_cases hs : res.StatusCode = 200
    · cases hb : res.Body <;> simp [hs, hb]
    · simp [hs]

theorem attach_length (eps : List Episode) :
    ∀ (i : Nat) (seasons : List Season), (attach eps i seasons).length = seasons.length := by
  intro i seasons
  induction seasons generalizing i with
  | nil => cases i <;> rfl
  | cons season rest ih => cases i <;> simp [attach, ih]

theorem attach_attach (eps eps' : List Episode) :
    ∀ (i : Nat) (seasons : List Season),
      attach eps' i (attach eps i seasons) = attach (eps ++ eps') i seasons := by
  intro i seasons
  induction seasons generalizing i with
  | nil => cases i <;> rfl
  | cons season rest ih => cases i <;> simp [attach, ih]

theorem attach_nil : ∀ (i : Nat) (seasons : List Season), attach [] i seasons = seasons := by
  intro i seasons
  induction seasons generalizing i with
  | nil => cases i <;> rfl
  | cons season rest ih => cases i <;> simp [attach, ih]

theorem set_eq_attach (ep : Episode) :
    ∀ (i : Nat) (seasons : List Season) (season : Season), seasons[i]? = some season →
      seasons.set i { season with Episodes := season.Episodes ++ [ep] } = attach [ep] i seasons := by
  intro i seasons
  induction seasons generalizing i with
  | nil => intro season h; simp at h
  | cons first rest ih =>
    intro season h
    cases i with
    | zero =>
      simp only [List.getElem?_cons_zero, Option.some.injEq] at h
      subst h
      simp [attach]
    | succ i =>
      simp only [List.getElem?_cons_succ] at h
      simp [attach, ih i season h]

/-- The inner loop of `getEpisodesByShow` over the anchors `s` of the container
at position `i`, numbered from `j`: every anchor is requested; the loop panics
exactly when some anchor is resolved and `seasons` has no position `i`;
otherwise the resolved episodes are appended to the season at position `i` and
`retErr` becomes the error of the last failed anchor. -/
theorem episodes_loop (w : World) (url : URL) (i : Nat) :
    ∀ (s : List EpisodeAnchor) (j : Nat) (st : EpState),
      eachRunFrom (getEpisodesByShow.episode w url i) j s st =
        if i < st.seasons.length ∨
            kept url j s (resolveAll w (s.map (internalUrlOf url)) st.log) = [] then
          .done
            { seasons :=
                attach (kept url j s (resolveAll w (s.map (internalUrlOf url)) st.log)) i st.seasons,
              retErr := lastError (resolveAll w (s.map (internalUrlOf url)) st.log) st.retErr,
              log := st.log ++ s.map (internalUrlOf url) }
        else .panic "index out of range" := by
  intro s
  induction s with
  | nil =>
    intro j st
    simp [eachRunFrom, kept, resolveAll, lastError, attach_nil]
  | cons s1 s ih =>
    intro j st
    have hlog := getEpisodeExternalUrl_log w (internalUrlOf url s1) st.log
    rcases hres : getEpisodeExternalUrl w (internalUrlOf url s1) st.log with ⟨⟨ext, e⟩, log1⟩
    rw [hres] at hlog
    simp only at hlog
    subst hlog
    have hres' : getEpisodeExternalUrl w (sprintfUrl url.Scheme url.Host (s1.href.getD ""))
        st.log = ((ext, e), st.log ++ [internalUrlOf url s1]) := hres
    cases e with
    | some err =>
      simp only [eachRunFrom, getEpisodesByShow.episode, hres', List.map_cons, resolveAll, hres,
        kept, lastError]
      rw [ih]
      simp [List.append_assoc]
    | none =>
      by_cases hi : i < st.seasons.length
      · obtain ⟨season, hseason⟩ : ∃ season, st.seasons[i]? = some season :=
          ⟨st.seasons[i], List.getElem?_eq_getElem hi⟩
        simp only [eachRunFrom, getEpisodesByShow.episode, hres', hseason, List.map_cons,
          resolveAll, hres, kept, lastError]
        rw [ih]
        have hset := set_eq_attach (episodeOf url j s1 ext) i st.seasons season hseason
        simp only [episodeOf, internalUrlOf, sprintfUrl] at hset ⊢
        simp [hset, attach_length, hi, attach_attach, List.append_assoc]
      · have hnone : st.seasons[i]? = none := List.getElem?_eq_none (by omega)
        simp [eachRunFrom, getEpisodesByShow.episode, hres', hnone, resolveAll, hres, kept, hi]

theorem lastError_append (outs outs' : List (String × Option Error)) :
    ∀ e : Option Error, lastError (outs ++ outs') e = lastError outs' (lastError outs e) := by
  induction outs with
  | nil => intro e; rfl
  | cons o outs ih =>
    intro e
    obtain ⟨x, err⟩ := o
    cases err <;> simp [lastError, ih]

/-- The outer loop of `getEpisodesByShow` over the containers `cs`, counted
from `i`: a panic exactly when some container without a season has a resolved
anchor; otherwise every anchor has been requested, the resolved episodes of the
container at position `i + m` are appended to the season at that position, and
`retErr` is the error of the last failed anchor. -/
theorem containers_loop (w : World) (url : URL) :
    ∀ (cs : List (List EpisodeAnchor)) (i : Nat) (st : EpState),
      eachRunFrom (getEpisodesByShow.container w url) i cs st =
        if fits i (List.zipWith (kept url 0) cs (resolveLists w url cs st.log))
            st.seasons.length = true then
          .done
            { seasons :=
                attachFrom i (List.zipWith (kept url 0) cs (resolveLists w url cs st.log))
                  st.seasons,
              retErr := lastError (resolveLists w url cs st.log).flatten st.retErr,
              log := st.log ++ cs.flatten.map (internalUrlOf url) }
        else .panic "index out of range" := by
  intro cs
  induction cs with
  | nil =>
    intro i st
    simp [eachRunFrom, resolveLists, fits, attachFrom, lastError]
  | cons s cs ih =>
    intro i st
    simp only [eachRunFrom, getEpisodesByShow.container, EachRun]
    rw [episodes_loop]
    by_cases hc : i < st.seasons.length ∨
        kept url 0 s (resolveAll w (s.map (internalUrlOf url)) st.log) = []
    · rw [if_pos hc]
      simp only
      rw [ih]
      have hfit : (decide (i < st.seasons.length) ||
          (kept url 0 s (resolveAll w (s.map (internalUrlOf url)) st.log)).isEmpty) = true := by
        rcases hc with h | h
        · simp [h]
        · simp [h]
      simp only [resolveLists, List.zipWith_cons_cons, fits, hfit, Bool.true_and, attach_length,
        attachFrom, List.flatten_cons, lastError_append, List.map_append, List.append_assoc]
    · rw [if_neg hc]
      have hfit : (decide (i < st.seasons.length) ||
          (kept url 0 s (resolveAll w (s.map (internalUrlOf url)) st.log)).isEmpty) = false := by
        simp only [not_or] at hc
        simp [hc.1, List.isEmpty_iff, hc.2]
      simp [resolveLists, fits, hfit]

theorem headings_each (hs : List String) :
    ∀ (i : Nat) (acc : List Season),
      eachFrom getEpisodesByShow.heading i hs acc =
        acc ++ hs.map (fun h => { Name := Trim h " \t\n", Episodes := [] }) := by
  induction hs with
  | nil => intro i acc; simp [eachFrom]
  | cons h hs ih => intro i acc; simp [eachFrom, ih, getEpisodesByShow.heading]

/-- The run of `getEpisodesByShow` on a show page that is fetched and parsed, in
terms of the results of the resolver. -/
theorem getEpisodesByShow_page (env : Env) (w : World) (tvShow : TVShow) (baseUrl : String)
    (log : List String) (res : Response) (url : URL) (doc : Document)
    (hget : w log tvShow.Url = .ok res) (hstatus : res.StatusCode = 200)
    (hurl : env.urlParse baseUrl = .ok url) (hbody : res.Body = .ok doc) :
    getEpisodesByShow env w tvShow baseUrl log =
      if fits 0 (List.zipWith (kept url 0) doc.episodeLists
            (resolveLists w url doc.episodeLists (log ++ [tvShow.Url])))
          doc.seasonHeadings.length = true then
        .done
          ((attachFrom 0 (List.zipWith (kept url 0) doc.episodeLists
              (resolveLists w url doc.episodeLists (log ++ [tvShow.Url])))
              (doc.seasonHeadings.map (fun h => { Name := Trim h " \t\n", Episodes := [] })),
            lastError (resolveLists w url doc.episodeLists (log ++ [tvShow.Url])).flatten none),
            (log ++ [tvShow.Url]) ++ doc.episodeLists.flatten.map (internalUrlOf url))
      else .panic "index out of range" := by
  simp only [getEpisodesByShow, httpGet, hget, hstatus, hurl, hbody, EachRun, Each,
    headings_each, containers_loop, List.nil_append, List.length_map]
  split_ifs <;> simp_all

/-! ## The results of the resolver, position by position -/

theorem resolveAll_length (w : World) (us : List String) :
    ∀ log : List String, (resolveAll w us log).length = us.length := by
  induction us with
  | nil => intro log; rfl
  | cons u us ih => intro log; simp [resolveAll, ih]

theorem resolveAll_getElem? (w : World) (us : List String) :
    ∀ (log : List String) (j : Nat),
      (resolveAll w us log)[j]? =
        us[j]?.map (fun u => (getEpisodeExternalUrl w u (log ++ us.take j)).1) := by
  induction us with
  | nil => intro log j; simp [resolveAll]
  | cons u us ih =>
    intro log j
    cases j with
    | zero => simp [resolveAll]
    | succ j => simp [resolveAll, ih, List.append_assoc]

theorem resolveLists_length (w : World) (url : URL) (cs : List (List EpisodeAnchor)) :
    ∀ log : List String, (resolveLists w url cs log).length = cs.length := by
  induction cs with
  | nil => intro log; rfl
  | cons s cs ih => intro log; simp [resolveLists, ih]

theorem resolveLists_getElem? (w : World) (url : URL) (cs : List (List EpisodeAnchor)) :
    ∀ (log : List String) (i : Nat),
      (resolveLists w url cs log)[i]? =
        cs[i]?.map (fun s => resolveAll w (s.map (internalUrlOf url))
          (log ++ (cs.take i).flatten.map (internalUrlOf url))) := by
  induction cs with
  | nil => intro log i; simp [resolveLists]
  | cons s cs ih =>
    intro log i
    cases i with
    | zero => simp [resolveLists]
    | succ i => simp [resolveLists, ih, List.append_assoc]

theorem kept_mem_iff (url : URL) (ep : Episode) :
    ∀ (s : List EpisodeAnchor) (outs : List (String × Option Error)) (j0 : Nat),
      ep ∈ kept url j0 s outs ↔
        ∃ (j : Nat) (s1 : EpisodeAnchor) (ext : String),
          s[j]? = some s1 ∧ outs[j]? = some (ext, none) ∧ ep = episodeOf url (j0 + j) s1 ext := by
  intro s
  induction s with
  | nil => intro outs j0; simp [kept]
  | cons a s ih =>
    intro outs j0
    cases outs with
    | nil => simp [kept]
    | cons o outs =>
      obtain ⟨x, e⟩ := o
      cases e with
      | none =>
        simp only [kept, List.mem_cons, ih]
        constructor
        · rintro (h | ⟨j, s1, ext, h1, h2, h3⟩)
          · exact ⟨0, a, x, by simp, by simp, by simpa using h⟩
          · exact ⟨j + 1, s1, ext, by simpa using h1, by simpa using h2, by
              rw [h3]; congr 1; omega⟩
        · rintro ⟨j, s1, ext, h1, h2, h3⟩
          cases j with
          | zero =>
            simp only [List.getElem?_cons_zero, Option.some.injEq, Prod.mk.injEq] at h1 h2
            left
            rw [h3, ← h1, ← h2.1]
            rfl
          | succ j =>
            right
            exact ⟨j, s1, ext, by simpa using h1, by simpa using h2, by
              rw [h3]; congr 1; omega⟩
      | some err =>
        simp only [kept, ih]
        constructor
        · rintro ⟨j, s1, ext, h1, h2, h3⟩
          exact ⟨j + 1, s1, ext, by simpa using h1, by simpa using h2, by
            rw [h3]; congr 1; omega⟩
        · rintro ⟨j, s1, ext, h1, h2, h3⟩
          cases j with
          | zero => simp at h2
          | succ j =>
            exact ⟨j, s1, ext, by simpa using h1, by simpa using h2, by
              rw [h3]; congr 1; omega⟩

theorem kept_chapter_gt (url : URL) (s : List EpisodeAnchor) (outs : List (String × Option Error))
    (j0 : Nat) (ep : Episode) (h : ep ∈ kept url j0 s outs) : (j0 : Int) < ep.Chapter := by
  obtain ⟨j, s1, ext, _, _, rfl⟩ := (kept_mem_iff url ep s outs j0).mp h
  simp only [episodeOf]
  push_cast
  omega

theorem kept_chapters_increasing (url : URL) :
    ∀ (s : List EpisodeAnchor) (outs : List (String × Option Error)) (j0 : Nat),
      ((kept url j0 s outs).map (fun ep => ep.Chapter)).Pairwise (fun a b => a < b) := by
  intro s
  induction s with
  | nil => intro outs j0; simp [kept]
  | cons a s ih =>
    intro outs j0
    cases outs with
    | nil => simp [kept]
    | cons o outs =>
      obtain ⟨x, e⟩ := o
      cases e with
      | none =>
        simp only [kept, List.map_cons, List.pairwise_cons, List.mem_map]
        refine ⟨?_, ih outs (j0 + 1)⟩
        rintro c ⟨ep, hep, rfl⟩
        have := kept_chapter_gt url s outs (j0 + 1) ep hep
        simp only [episodeOf]
        push_cast at this
        omega
      | some err => simpa [kept] using ih outs (j0 + 1)

theorem kept_of_all_resolved (url : URL) :
    ∀ (s : List EpisodeAnchor) (outs : List (String × Option Error)) (j0 : Nat),
      outs.length = s.length → (∀ o ∈ outs, o.2 = none) →
        (kept url j0 s outs).length = s.length ∧
        (∀ (j : Nat) (s1 : EpisodeAnchor) (o : String × Option Error),
          s[j]? = some s1 → outs[j]? = some o →
            (kept url j0 s outs)[j]? = some (episodeOf url (j0 + j) s1 o.1)) ∧
        (kept url j0 s outs).map (fun ep => ep.Chapter) =
          (List.range' (j0 + 1) s.length).map (fun k : Nat => (k : Int)) := by
  intro s
  induction s with
  | nil => intro outs j0 _ _; simp [kept]
  | cons a s ih =>
    intro outs j0 hlen hall
    cases outs with
    | nil => simp at hlen
    | cons o outs =>
      obtain ⟨x, e⟩ := o
      have he : e = none := hall (x, e) (by simp)
      subst he
      obtain ⟨h1, h2, h3⟩ :=
        ih outs (j0 + 1) (by simpa using hlen) (fun o ho => hall o (by simp [ho]))
      refine ⟨by simp [kept, h1], ?_, ?_⟩
      · intro j s1 o hs1 ho
        cases j with
        | zero =>
          simp only [List.getElem?_cons_zero, Option.some.injEq] at hs1 ho
          subst hs1 ho
          simp [kept]
        | succ j =>
          simp only [List.getElem?_cons_succ] at hs1 ho
          have := h2 j s1 o hs1 ho
          simp only [kept, List.getElem?_cons_succ, this]
          congr 2
          omega
      · simp only [kept, List.map_cons, h3, List.length_cons, List.range'_succ, episodeOf]
        push_cast
        rfl

theorem keptLists_getElem? (w : World) (url : URL) (cs : List (List EpisodeAnchor)) :
    ∀ (log : List String) (i : Nat),
      (List.zipWith (kept url 0) cs (resolveLists w url cs log))[i]? =
        cs[i]?.map (fun s => kept url 0 s (resolveAll w (s.map (internalUrlOf url))
          (log ++ (cs.take i).flatten.map (internalUrlOf url)))) := by
  induction cs with
  | nil => intro log i; simp [resolveLists]
  | cons s cs ih =>
    intro log i
    cases i with
    | zero => simp [resolveLists]
    | succ i => simp [resolveLists, ih, List.append_assoc]

theorem resolveAll_outcomeAt (w : World) (url : URL) (cs : List (List EpisodeAnchor))
    (log : List String) (i j : Nat) (s : List EpisodeAnchor) (s1 : EpisodeAnchor)
    (hs : cs[i]? = some s) (hs1 : s[j]? = some s1) :
    (resolveAll w (s.map (internalUrlOf url))
      (log ++ (cs.take i).flatten.map (internalUrlOf url)))[j]? =
        some (outcomeAt w url cs log i j s1) := by
  rw [resolveAll_getElem?]
  simp [hs1, outcomeAt, requestsBefore, hs, List.map_take, List.append_assoc]

/-- Every result recorded for a container is the result of the resolver for an
anchor of that container. -/
theorem resolveLists_mem (w : World) (url : URL) (cs : List (List EpisodeAnchor))
    (log : List String) (i j : Nat) (outs : List (String × Option Error))
    (o : String × Option Error)
    (hi : (resolveLists w url cs log)[i]? = some outs) (hj : outs[j]? = some o) :
    ∃ (s : List EpisodeAnchor) (s1 : EpisodeAnchor),
      cs[i]? = some s ∧ s[j]? = some s1 ∧ o = outcomeAt w url cs log i j s1 := by
  rw [resolveLists_getElem?] at hi
  cases hs : cs[i]? with
  | none => simp [hs] at hi
  | some s =>
    simp only [hs, Option.map_some', Option.some.injEq] at hi
    subst hi
    have hlen : (resolveAll w (s.map (internalUrlOf url))
        (log ++ (cs.take i).flatten.map (internalUrlOf url))).length = s.length := by
      rw [resolveAll_length, List.length_map]
    have hlt : j < s.length := by
      by_contra h
      rw [List.getElem?_eq_none (by omega)] at hj
      simp at hj
    refine ⟨s, s[j], rfl, List.getElem?_eq_getElem hlt, ?_⟩
    have := resolveAll_outcomeAt w url cs log i j s s[j] hs (List.getElem?_eq_getElem hlt)
    rw [this] at hj
    exact (Option.some.inj hj).symm

theorem resolveLists_all_resolved (w : World) (url : URL) (cs : List (List EpisodeAnchor))
    (log : List String)
    (hok : ∀ (i j : Nat) (s : List EpisodeAnchor) (s1 : EpisodeAnchor),
      cs[i]? = some s → s[j]? = some s1 → (outcomeAt w url cs log i j s1).2 = none) :
    ∀ outs ∈ resolveLists w url cs log, ∀ o ∈ outs, o.2 = none := by
  intro outs houts o ho
  obtain ⟨i, hi, rfl⟩ := List.mem_iff_getElem.mp houts
  obtain ⟨j, hj, rfl⟩ := List.mem_iff_getElem.mp ho
  obtain ⟨s, s1, hs, hs1, heq⟩ := resolveLists_mem w url cs log i j _ _
    (List.getElem?_eq_getElem hi) (List.getElem?_eq_getElem hj)
  rw [heq]
  exact hok i j s s1 hs hs1

/-! ## The seasons after the two loops -/

theorem attach_getElem? (eps : List Episode) :
    ∀ (seasons : List Season) (i m : Nat),
      (attach eps i seasons)[m]? =
        if m = i then
          seasons[m]?.map (fun season => { season with Episodes := season.Episodes ++ eps })
        else seasons[m]? := by
  intro seasons
  induction seasons with
  | nil => intro i m; cases i <;> simp [attach]
  | cons season rest ih =>
    intro i m
    cases i with
    | zero =>
      cases m with
      | zero => simp [attach]
      | succ m => simp [attach]
    | succ i =>
      cases m with
      | zero => simp [attach]
      | succ m => simp [attach, ih]

theorem attachFrom_getElem? :
    ∀ (epss : List (List Episode)) (i : Nat) (seasons : List Season) (m : Nat),
      (attachFrom i epss seasons)[m]? =
        if i ≤ m then
          seasons[m]?.map (fun season =>
            { season with Episodes := season.Episodes ++ (epss[m - i]?).getD [] })
        else seasons[m]? := by
  intro epss
  induction epss with
  | nil =>
    intro i seasons m
    simp only [attachFrom, List.getElem?_nil, Option.getD_none, List.append_nil]
    split_ifs
    · cases seasons[m]? <;> rfl
    · rfl
  | cons eps rest ih =>
    intro i seasons m
    simp only [attachFrom, ih, attach_getElem?]
    by_cases h1 : i + 1 ≤ m
    · have h2 : i ≤ m := by omega
      have h3 : m ≠ i := by omega
      have h4 : m - i = (m - (i + 1)) + 1 := by omega
      simp [h1, h2, h3, h4]
    · by_cases h2 : m = i
      · subst h2
        simp
      · have h3 : ¬ i ≤ m := by omega
        simp [h1, h2, h3]

theorem attachFrom_length :
    ∀ (epss : List (List Episode)) (i : Nat) (seasons : List Season),
      (attachFrom i epss seasons).length = seasons.length := by
  intro epss
  induction epss with
  | nil => intro i seasons; rfl
  | cons eps rest ih => intro i seasons; simp [attachFrom, ih, attach_length]

/-- The season at position `m` after the two loops: the name of the heading at
that position, and the resolved episodes of the container at that position
(none when there is no such container). -/
theorem seasons_getElem? (epss : List (List Episode)) (hs : List String) (m : Nat) :
    (attachFrom 0 epss (hs.map (fun h => ({ Name := Trim h " \t\n", Episodes := [] } : Season))))[m]? =
      hs[m]?.map (fun h => { Name := Trim h " \t\n", Episodes := (epss[m]?).getD [] }) := by
  rw [attachFrom_getElem?]
  simp only [Nat.zero_le, if_true, Nat.sub_zero, List.getElem?_map]
  cases hs[m]? <;> simp

theorem fits_of_le :
    ∀ (epss : List (List Episode)) (i n : Nat), i + epss.length ≤ n → fits i epss n = true := by
  intro epss
  induction epss with
  | nil => intro i n _; rfl
  | cons eps rest ih =>
    intro i n h
    simp only [List.length_cons] at h
    simp only [fits, Bool.and_eq_true, Bool.or_eq_true, decide_eq_true_eq]
    exact ⟨Or.inl (by omega), ih (i + 1) n (by omega)⟩

theorem fits_getElem? :
    ∀ (epss : List (List Episode)) (i n m : Nat) (eps : List Episode),
      fits i epss n = true → epss[m]? = some eps → eps ≠ [] → i + m < n := by
  intro epss
  induction epss with
  | nil => intro i n m eps _ h; simp at h
  | cons first rest ih =>
    intro i n m eps hfit hm hne
    simp only [fits, Bool.and_eq_true, Bool.or_eq_true, decide_eq_true_eq,
      List.isEmpty_iff] at hfit
    cases m with
    | zero =>
      simp only [List.getElem?_cons_zero, Option.some.injEq] at hm
      subst hm
      rcases hfit.1 with h | h
      · simpa using h
      · exact absurd h hne
    | succ m =>
      simp only [List.getElem?_cons_succ] at hm
      have := ih (i + 1) n m eps hfit.2 hm hne
      omega

/-! ## The error after the two loops -/

theorem lastError_of_all_resolved (outs : List (String × Option Error)) :
    ∀ e : Option Error, (∀ o ∈ outs, o.2 = none) → lastError outs e = e := by
  induction outs with
  | nil => intro e _; rfl
  | cons o outs ih =>
    intro e h
    obtain ⟨x, err⟩ := o
    have : err = none := h (x, err) (by simp)
    subst this
    simp only [lastError]
    exact ih e (fun o ho => h o (by simp [ho]))

theorem lastError_eq_none (outs : List (String × Option Error)) :
    ∀ e : Option Error, lastError outs e = none → e = none ∧ ∀ o ∈ outs, o.2 = none := by
  induction outs with
  | nil => intro e h; exact ⟨h, by simp⟩
  | cons o outs ih =>
    intro e h
    obtain ⟨x, err⟩ := o
    cases err with
    | none =>
      simp only [lastError] at h
      obtain ⟨he, hall⟩ := ih e h
      exact ⟨he, by simpa using hall⟩
    | some err =>
      simp only [lastError] at h
      exact absurd (ih _ h).1 (by simp)

theorem lastError_last_failed (outs : List (String × Option Error)) (j : Nat) (x : String)
    (err : Error) (e : Option Error) (hj : outs[j]? = some (x, some err))
    (hlater : ∀ (j' : Nat) (o : String × Option Error), j < j' → outs[j']? = some o → o.2 = none) :
    lastError outs e = some err := by
  have hlt : j < outs.length := by
    by_contra h
    rw [List.getElem?_eq_none (by omega)] at hj
    simp at hj
  have hsplit : outs = outs.take j ++ (x, some err) :: outs.drop (j + 1) := by
    have h1 : outs[j] = (x, some err) := by
      rw [List.getElem?_eq_getElem hlt] at hj
      exact Option.some.inj hj
    rw [← h1, ← List.drop_eq_getElem_cons hlt, List.take_append_drop]
  rw [hsplit, lastError_append]
  simp only [lastError]
  apply lastError_of_all_resolved
  intro o ho
  obtain ⟨k, hk, rfl⟩ := List.mem_iff_getElem.mp ho
  apply hlater (j + 1 + k) _ (by omega)
  simp only [List.length_drop] at hk
  rw [List.getElem_drop, List.getElem?_eq_getElem (by omega)]

theorem lastError_flatten_last_failed (lists : List (List (String × Option Error))) (i j : Nat)
    (outs : List (String × Option Error)) (x : String) (err : Error) (e : Option Error)
    (hi : lists[i]? = some outs) (hj : outs[j]? = some (x, some err))
    (hlater : ∀ (j' : Nat) (o : String × Option Error), j < j' → outs[j']? = some o → o.2 = none)
    (hafter : ∀ (i' : Nat) (outs' : List (String × Option Error)), i < i' →
      lists[i']? = some outs' → ∀ o ∈ outs', o.2 = none) :
    lastError lists.flatten e = some err := by
  have hlt : i < lists.length := by
    by_contra h
    rw [List.getElem?_eq_none (by omega)] at hi
    simp at hi
  have hsplit : lists = lists.take i ++ outs :: lists.drop (i + 1) := by
    have h1 : lists[i] = outs := by
      rw [List.getElem?_eq_getElem hlt] at hi
      exact Option.some.inj hi
    rw [← h1, ← List.drop_eq_getElem_cons hlt, List.take_append_drop]
  rw [hsplit, List.flatten_append, List.flatten_cons, lastError_append, lastError_append,
    lastError_last_failed outs j x err _ hj hlater]
  apply lastError_of_all_resolved
  intro o ho
  obtain ⟨outs', hmem, ho'⟩ := List.mem_flatten.mp ho
  obtain ⟨k, hk, rfl⟩ := List.mem_iff_getElem.mp hmem
  simp only [List.length_drop] at hk
  refine hafter (i + 1 + k) _ (by omega) ?_ o ho'
  rw [List.getElem_drop, List.getElem?_eq_getElem (by omega)]

/-! ## `getEpisodesByShow` -/

/-- When `getEpisodesByShow` returns on a show page that is fetched and parsed,
no container without a season had a resolved anchor, and the seasons, the error
and the requests are those left by the two loops. -/
theorem getEpisodesByShow_returned (env : Env) (w : World) (tvShow : TVShow) (baseUrl : String)
    (log : List String) (res : Response) (url : URL) (doc : Document)
    (seasons : List Season) (err : Option Error) (log' : List String)
    (hget : w log tvShow.Url = .ok res) (hstatus : res.StatusCode = 200)
    (hurl : env.urlParse baseUrl = .ok url) (hbody : res.Body = .ok doc)
    (hrun : getEpisodesByShow env w tvShow baseUrl log = .done ((seasons, err), log')) :
    fits 0 (List.zipWith (kept url 0) doc.episodeLists
        (resolveLists w url doc.episodeLists (log ++ [tvShow.Url])))
      doc.seasonHeadings.length = true ∧
    seasons = attachFrom 0 (List.zipWith (kept url 0) doc.episodeLists
        (resolveLists w url doc.episodeLists (log ++ [tvShow.Url])))
        (doc.seasonHeadings.map (fun h => { Name := Trim h " \t\n", Episodes := [] })) ∧
    err = lastError (resolveLists w url doc.episodeLists (log ++ [tvShow.Url])).flatten none ∧
    log' = (log ++ [tvShow.Url]) ++ doc.episodeLists.flatten.map (internalUrlOf url) := by
  rw [getEpisodesByShow_page env w tvShow baseUrl log res url doc hget hstatus hurl hbody] at hrun
  split_ifs at hrun with hfit
  simp only [Run.done.injEq, Prod.mk.injEq] at hrun
  exact ⟨hfit, hrun.1.1.symm, hrun.1.2.symm, hrun.2.symm⟩

/-- On a show page that is fetched and parsed and whose containers are not more
numerous than its headings, every `seasons[seasonIndex]` is in range and
`getEpisodesByShow` returns. -/
theorem getEpisodesByShow_returns_of_le (env : Env) (w : World) (tvShow : TVShow)
    (baseUrl : String) (log : List String) (res : Response) (url : URL) (doc : Document)
    (hget : w log tvShow.Url = .ok res) (hstatus : res.StatusCode = 200)
    (hurl : env.urlParse baseUrl = .ok url) (hbody : res.Body = .ok doc)
    (hle : doc.episodeLists.length ≤ doc.seasonHeadings.length) :
    ∃ (seasons : List Season) (err : Option Error) (log' : List String),
      getEpisodesByShow env w tvShow baseUrl log = .done ((seasons, err), log') := by
  have hfit : fits 0 (List.zipWith (kept url 0) doc.episodeLists
      (resolveLists w url doc.episodeLists (log ++ [tvShow.Url])))
      doc.seasonHeadings.length = true := by
    apply fits_of_le
    simp only [List.length_zipWith, resolveLists_length]
    omega
  rw [getEpisodesByShow_page env w tvShow baseUrl log res url doc hget hstatus hurl hbody,
    if_pos hfit]
  exact ⟨_, _, _, rfl⟩

/-- The episodes of the season at position `i` after the two loops. -/
theorem season_episodes (w : World) (url : URL) (cs : List (List EpisodeAnchor))
    (hs : List String) (log : List String) (i : Nat) (season : Season)
    (h : (attachFrom 0 (List.zipWith (kept url 0) cs (resolveLists w url cs log))
      (hs.map (fun h => ({ Name := Trim h " \t\n", Episodes := [] } : Season))))[i]? =
        some season) :
    ∃ heading, hs[i]? = some heading ∧ season.Name = Trim heading " \t\n" ∧
      season.Episodes =
        ((cs[i]?).map (fun s => kept url 0 s (resolveAll w (s.map (internalUrlOf url))
          (log ++ (cs.take i).flatten.map (internalUrlOf url))))).getD [] := by
  rw [seasons_getElem?, keptLists_getElem?] at h
  cases hh : hs[i]? with
  | none => simp [hh] at h
  | some heading =>
    simp only [hh, Option.map_some', Option.some.injEq] at h
    subst h
    exact ⟨heading, rfl, rfl, rfl⟩

/-- C10: on a show page with one season heading and two episode-list containers
of one anchor each, every episode resolving successfully, `getEpisodesByShow`
evaluates `seasons[1]` on a list of length 1 and panics with an index out of
range. -/
theorem getEpisodesByShow_index_out_of_range :
    getEpisodesByShow env64 (site twoListsDoc) alpha "https://lacartoons.test" [] =
      .panic "index out of range" := by
  decide

/-- C9: on a show page that is fetched and parsed, with `h` season headings and
`c <= h` episode-list containers, every episode resolving successfully,
`getEpisodesByShow` returns with a nil error exactly `h` seasons in heading
order; the season at the position of a container holds exactly the episodes of
the anchors of that container, in order; each season after the last container
has no episode. -/
theorem getEpisodesByShow_fewer_containers (env : Env) (w : World) (tvShow : TVShow)
    (baseUrl : String) (log : List String) (res : Response) (url : URL) (doc : Document)
    (hget : w log tvShow.Url = .ok res) (hstatus : res.StatusCode = 200)
    (hurl : env.urlParse baseUrl = .ok url) (hbody : res.Body = .ok doc)
    (hle : doc.episodeLists.length ≤ doc.seasonHeadings.length)
    (hok : ∀ (i j : Nat) (s : List EpisodeAnchor) (s1 : EpisodeAnchor),
      doc.episodeLists[i]? = some s → s[j]? = some s1 →
        (outcomeAt w url doc.episodeLists (log ++ [tvShow.Url]) i j s1).2 = none) :
    ∃ (seasons : List Season) (log' : List String),
      getEpisodesByShow env w tvShow baseUrl log = .done ((seasons, none), log') ∧
      seasons.length = doc.seasonHeadings.length ∧
      (∀ (i : Nat) (heading : String), doc.seasonHeadings[i]? = some heading →
        ∃ season, seasons[i]? = some season ∧ season.Name = Trim heading " \t\n") ∧
      (∀ (i : Nat) (s : List EpisodeAnchor), doc.episodeLists[i]? = some s →
        ∃ season, seasons[i]? = some season ∧ season.Episodes.length = s.length ∧
          ∀ (j : Nat) (s1 : EpisodeAnchor), s[j]? = some s1 →
            season.Episodes[j]? = some
              { Chapter := (j : Int) + 1, Name := Trim s1.text " \t\n",
                InternalUrl := url.Scheme ++ "://" ++ url.Host ++ s1.href.getD "",
                ExternalUrl :=
                  (outcomeAt w url doc.episodeLists (log ++ [tvShow.Url]) i j s1).1 }) ∧
      (∀ (i : Nat) (season : Season), doc.episodeLists.length ≤ i →
        seasons[i]? = some season → season.Episodes = []) := by
  have hall := resolveLists_all_resolved w url doc.episodeLists (log ++ [tvShow.Url]) hok
  have hfit : fits 0 (List.zipWith (kept url 0) doc.episodeLists
      (resolveLists w url doc.episodeLists (log ++ [tvShow.Url])))
      doc.seasonHeadings.length = true := by
    apply fits_of_le
    simp only [List.length_zipWith, resolveLists_length]
    omega
  have herr : lastError (resolveLists w url doc.episodeLists (log ++ [tvShow.Url])).flatten none
      = none := by
    apply lastError_of_all_resolved
    intro o ho
    obtain ⟨outs, houts, ho'⟩ := List.mem_flatten.mp ho
    exact hall outs houts o ho'
  refine ⟨attachFrom 0 (List.zipWith (kept url 0) doc.episodeLists
      (resolveLists w url doc.episodeLists (log ++ [tvShow.Url])))
      (doc.seasonHeadings.map (fun h => { Name := Trim h " \t\n", Episodes := [] })),
    (log ++ [tvShow.Url]) ++ doc.episodeLists.flatten.map (internalUrlOf url), ?_, ?_, ?_, ?_, ?_⟩
  · rw [getEpisodesByShow_page env w tvShow baseUrl log res url doc hget hstatus hurl hbody,
      if_pos hfit, herr]
  · simp [attachFrom_length]
  · intro i heading hh
    rw [seasons_getElem?, hh]
    exact ⟨_, rfl, rfl⟩
  · intro i s hs
    have hlt : i < doc.seasonHeadings.length := by
      have : i < doc.episodeLists.length := by
        by_contra h
        rw [List.getElem?_eq_none (by omega)] at hs
        simp at hs
      omega
    rw [seasons_getElem?, keptLists_getElem?, List.getElem?_eq_getElem hlt, hs]
    have houts : ∀ o ∈ resolveAll w (s.map (internalUrlOf url))
        ((log ++ [tvShow.Url]) ++ (doc.episodeLists.take i).flatten.map (internalUrlOf url)),
        o.2 = none := by
      apply hall
      apply @List.getElem?_mem _ _ i
      rw [resolveLists_getElem?, hs]
      rfl
    obtain ⟨h1, h2, _⟩ := kept_of_all_resolved url s _ 0
      (by rw [resolveAll_length, List.length_map]) houts
    refine ⟨_, rfl, h1, ?_⟩
    intro j s1 hs1
    have := h2 j s1 _ hs1 (resolveAll_outcomeAt w url doc.episodeLists (log ++ [tvShow.Url])
      i j s s1 hs hs1)
    simpa [episodeOf, internalUrlOf] using this
  · intro i season hi hseason
    obtain ⟨_, _, _, heps⟩ := season_episodes w url _ _ _ i season hseason
    rw [heps, List.getElem?_eq_none hi]
    rfl

theorem getEpisodesByShow_fewer_containers_witness :
    ∃ (seasons : List Season) (log' : List String),
      getEpisodesByShow env64 (site twoHeadingsDoc) alpha "https://lacartoons.test" [] =
        .done ((seasons, none), log') ∧
      seasons.length = 2 ∧
      (∀ (i : Nat) (season : Season), 1 ≤ i → seasons[i]? = some season →
        season.Episodes = []) := by
  obtain ⟨seasons, log', h1, h2, _, _, h5⟩ :=
    getEpisodesByShow_fewer_containers env64 (site twoHeadingsDoc) alpha
      "https://lacartoons.test" [] { StatusCode := 200, Body := .ok twoHeadingsDoc }
      { Scheme := "https", Host := "lacartoons.test" } twoHeadingsDoc
      rfl rfl rfl rfl (by decide)
      (by
        intro i j s s1 _ _
        simp only [outcomeAt, getEpisodeExternalUrl, httpGet, site]
        split_ifs <;> rfl)
  exact ⟨seasons, log', h1, h2, h5⟩

/-- C1: a failure of `getEpisodeExternalUrl` for an episode leaves out that
episode only.  On a show page that is fetched and parsed, `getEpisodesByShow`
returns when the containers are not more numerous than the headings; and
whenever it returns, every episode of the page has been requested, in document
order; an episode whose resolution succeeded is in the season at the position
of its container, and no episode with the chapter number of a failed anchor is;
the error returned is that of the last episode in document order whose
resolution failed, and it is nil exactly when none failed. -/
theorem getEpisodesByShow_skips_failed (env : Env) (w : World) (tvShow : TVShow)
    (baseUrl : String) (log : List String) (res : Response) (url : URL) (doc : Document)
    (hget : w log tvShow.Url = .ok res) (hstatus : res.StatusCode = 200)
    (hurl : env.urlParse baseUrl = .ok url) (hbody : res.Body = .ok doc) :
    (doc.episodeLists.length ≤ doc.seasonHeadings.length →
      ∃ (seasons : List Season) (err : Option Error) (log' : List String),
        getEpisodesByShow env w tvShow baseUrl log = .done ((seasons, err), log')) ∧
    (∀ (seasons : List Season) (err : Option Error) (log' : List String),
      getEpisodesByShow env w tvShow baseUrl log = .done ((seasons, err), log') →
        log' = log ++ [tvShow.Url] ++ doc.episodeLists.flatten.map (internalUrlOf url) ∧
        (∀ (i j : Nat) (s : List EpisodeAnchor) (s1 : EpisodeAnchor),
          doc.episodeLists[i]? = some s → s[j]? = some s1 →
            (∀ ext : String,
              outcomeAt w url doc.episodeLists (log ++ [tvShow.Url]) i j s1 = (ext, none) →
                ∃ season, seasons[i]? = some season ∧
                  { Chapter := (j : Int) + 1, Name := Trim s1.text " \t\n",
                    InternalUrl := internalUrlOf url s1, ExternalUrl := ext } ∈
                    season.Episodes) ∧
            (∀ (x : String) (e : Error),
              outcomeAt w url doc.episodeLists (log ++ [tvShow.Url]) i j s1 = (x, some e) →
                ∀ season, seasons[i]? = some season →
                  ∀ ep ∈ season.Episodes, ep.Chapter ≠ (j : Int) + 1)) ∧
        (∀ (i j : Nat) (s : List EpisodeAnchor) (s1 : EpisodeAnchor) (x : String) (e : Error),
          doc.episodeLists[i]? = some s → s[j]? = some s1 →
          outcomeAt w url doc.episodeLists (log ++ [tvShow.Url]) i j s1 = (x, some e) →
          (∀ (i' j' : Nat) (s' : List EpisodeAnchor) (s1' : EpisodeAnchor),
            (i < i' ∨ (i' = i ∧ j < j')) → doc.episodeLists[i']? = some s' →
              s'[j']? = some s1' →
              (outcomeAt w url doc.episodeLists (log ++ [tvShow.Url]) i' j' s1').2 = none) →
          err = some e) ∧
        (err = none ↔
          ∀ (i j : Nat) (s : List EpisodeAnchor) (s1 : EpisodeAnchor),
            doc.episodeLists[i]? = some s → s[j]? = some s1 →
              (outcomeAt w url doc.episodeLists (log ++ [tvShow.Url]) i j s1).2 = none)) := by
  constructor
  · intro hle
    exact getEpisodesByShow_returns_of_le env w tvShow baseUrl log res url doc
      hget hstatus hurl hbody hle
  · intro seasons err log' hrun
    obtain ⟨hfit, hseasons, herr, hlog⟩ :=
      getEpisodesByShow_returned env w tvShow baseUrl log res url doc seasons err log'
        hget hstatus hurl hbody hrun
    refine ⟨hlog, ?_, ?_, ?_⟩
    · intro i j s s1 hs hs1
      have hout := resolveAll_outcomeAt w url doc.episodeLists (log ++ [tvShow.Url]) i j s s1
        hs hs1
      constructor
      · intro ext hext
        rw [hext] at hout
        have hmem : episodeOf url j s1 ext ∈ kept url 0 s
            (resolveAll w (s.map (internalUrlOf url))
              ((log ++ [tvShow.Url]) ++
                (doc.episodeLists.take i).flatten.map (internalUrlOf url))) :=
          (kept_mem_iff url _ s _ 0).mpr ⟨j, s1, ext, hs1, hout, by simp⟩
        have hkl : (List.zipWith (kept url 0) doc.episodeLists
            (resolveLists w url doc.episodeLists (log ++ [tvShow.Url])))[i]? = some
              (kept url 0 s (resolveAll w (s.map (internalUrlOf url))
                ((log ++ [tvShow.Url]) ++
                  (doc.episodeLists.take i).flatten.map (internalUrlOf url)))) := by
          rw [keptLists_getElem?, hs]
          rfl
        have hlt := fits_getElem? _ 0 _ i _ hfit hkl (List.ne_nil_of_mem hmem)
        rw [Nat.zero_add] at hlt
        have hseason : seasons[i]? = some
            { Name := Trim doc.seasonHeadings[i] " \t\n",
              Episodes := kept url 0 s (resolveAll w (s.map (internalUrlOf url))
                ((log ++ [tvShow.Url]) ++
                  (doc.episodeLists.take i).flatten.map (internalUrlOf url))) } := by
          rw [hseasons, seasons_getElem?, hkl, List.getElem?_eq_getElem hlt]
          rfl
        exact ⟨_, hseason, hmem⟩
      · intro x e hfail season hseason ep hep
        rw [hfail] at hout
        rw [hseasons] at hseason
        obtain ⟨_, _, _, heps⟩ := season_episodes w url _ _ _ i season hseason
        rw [heps, hs] at hep
        obtain ⟨j', s1', ext', _, hout', rfl⟩ := (kept_mem_iff url ep s _ 0).mp hep
        intro hch
        simp only [episodeOf] at hch
        have hjj : j' = j := by push_cast at hch; omega
        subst hjj
        rw [hout] at hout'
        simp at hout'
    · intro i j s s1 x e hs hs1 hfail hlater
      have hout := resolveAll_outcomeAt w url doc.episodeLists (log ++ [tvShow.Url]) i j s s1
        hs hs1
      rw [hfail] at hout
      have hi : (resolveLists w url doc.episodeLists (log ++ [tvShow.Url]))[i]? = some
          (resolveAll w (s.map (internalUrlOf url))
            ((log ++ [tvShow.Url]) ++
              (doc.episodeLists.take i).flatten.map (internalUrlOf url))) := by
        rw [resolveLists_getElem?, hs]
        rfl
      rw [herr]
      apply lastError_flatten_last_failed _ i j _ x e none hi hout
      · intro j' o hj' ho
        obtain ⟨s', s1', hs', hs1', rfl⟩ := resolveLists_mem w url _ _ i j' _ o hi ho
        exact hlater i j' s' s1' (Or.inr ⟨rfl, hj'⟩) hs' hs1'
      · intro i' outs' hi' houts' o ho
        obtain ⟨j', hj'⟩ := List.mem_iff_getElem?.mp ho
        obtain ⟨s', s1', hs', hs1', rfl⟩ := resolveLists_mem w url _ _ i' j' _ o houts' hj'
        exact hlater i' j' s' s1' (Or.inl hi') hs' hs1'
    · constructor
      · intro hnone i j s s1 hs hs1
        rw [herr] at hnone
        obtain ⟨_, hall⟩ := lastError_eq_none _ _ hnone
        apply hall
        apply List.mem_flatten.mpr
        refine ⟨_, @List.getElem?_mem _ _ i _ ?_, @List.getElem?_mem _ _ j _
          (resolveAll_outcomeAt w url doc.episodeLists (log ++ [tvShow.Url]) i j s s1 hs hs1)⟩
        rw [resolveLists_getElem?, hs]
        rfl
      · intro hok
        rw [herr]
        apply lastError_of_all_resolved
        intro o ho
        obtain ⟨outs, houts, ho'⟩ := List.mem_flatten.mp ho
        exact resolveLists_all_resolved w url _ _ hok outs houts o ho'

theorem getEpisodesByShow_skips_failed_witness :
    ∃ (seasons : List Season) (err : Option Error) (log' : List String),
      getEpisodesByShow env64 flakySite alpha "https://lacartoons.test" [] =
        .done ((seasons, err), log') ∧
      log' = [] ++ [alpha.Url] ++
        threeEpisodesDoc.episodeLists.flatten.map
          (internalUrlOf { Scheme := "https", Host := "lacartoons.test" }) := by
  have h := getEpisodesByShow_skips_failed env64 flakySite alpha "https://lacartoons.test" []
    { StatusCode := 200, Body := .ok threeEpisodesDoc }
    { Scheme := "https", Host := "lacartoons.test" } threeEpisodesDoc rfl rfl rfl rfl
  obtain ⟨seasons, err, log', hrun⟩ := h.1 (by decide)
  exact ⟨seasons, err, log', hrun, (h.2 seasons err log' hrun).1⟩

/-- C1, as stated, fails: on a show page with one container of three anchors,
the resolver failing for the first (status 500) and the third (status 404) and
succeeding for the second, `getEpisodesByShow` does not stop at the first
failure.  The second and third episodes are still requested, the second one is
appended, and the error returned is that of the third episode, not the seasons
built up to the first episode together with its error. -/
theorem getEpisodesByShow_continues_after_failure :
    (getEpisodeExternalUrl flakySite "https://lacartoons.test/e/1"
      ["https://lacartoons.test/serie/1"]).1 = ("", some (.status 500)) ∧
    getEpisodesByShow env64 flakySite alpha "https://lacartoons.test" [] =
      .done
        (([{ Name := "Temporada 1",
             Episodes := [{ Name := "Dos", InternalUrl := "https://lacartoons.test/e/2",
                            ExternalUrl := "https://video.test/v", Chapter := 2 }] }],
          some (.status 404)),
         ["https://lacartoons.test/serie/1", "https://lacartoons.test/e/1",
          "https://lacartoons.test/e/2", "https://lacartoons.test/e/3"]) ∧
    getEpisodesByShow env64 flakySite alpha "https://lacartoons.test" [] ≠
      .done
        (([{ Name := "Temporada 1", Episodes := [] }], some (.status 500)),
         ["https://lacartoons.test/serie/1", "https://lacartoons.test/e/1"]) := by
  decide

/-- C2: in every season that `getEpisodesByShow` returns, the chapter numbers
are strictly increasing in list order and at least 1 (the number of an episode
is the position of its anchor in the container, and a failed episode is left
out); when the error returned is nil they are exactly 1, 2, ...,
`len(Episodes)`. -/
theorem getEpisodesByShow_chapters (env : Env) (w : World) (tvShow : TVShow) (baseUrl : String)
    (log : List String) (seasons : List Season) (err : Option Error) (log' : List String)
    (hrun : getEpisodesByShow env w tvShow baseUrl log = .done ((seasons, err), log')) :
    ∀ season ∈ seasons,
      (season.Episodes.map (fun ep => ep.Chapter)).Pairwise (fun a b => a < b) ∧
      (∀ ep ∈ season.Episodes, 1 ≤ ep.Chapter) ∧
      (err = none →
        season.Episodes.map (fun ep => ep.Chapter) =
          (List.range' 1 season.Episodes.length).map (fun k : Nat => (k : Int))) := by
  intro season hseason
  cases hget : w log tvShow.Url with
  | error e =>
    simp only [getEpisodesByShow, httpGet, hget, Run.done.injEq, Prod.mk.injEq] at hrun
    rw [← hrun.1.1] at hseason
    simp at hseason
  | ok res =>
    by_cases hstatus : res.StatusCode = 200
    · cases hurl : env.urlParse baseUrl with
      | error e =>
        simp only [getEpisodesByShow, httpGet, hget, hstatus, hurl, Run.done.injEq,
          Prod.mk.injEq, ne_eq, not_true_eq_false, if_false] at hrun
        rw [← hrun.1.1] at hseason
        simp at hseason
      | ok url =>
        cases hbody : res.Body with
        | error e =>
          simp only [getEpisodesByShow, httpGet, hget, hstatus, hurl, hbody, Run.done.injEq,
            Prod.mk.injEq, ne_eq, not_true_eq_false, if_false] at hrun
          rw [← hrun.1.1] at hseason
          simp at hseason
        | ok doc =>
          obtain ⟨_, hseasons, herr, _⟩ :=
            getEpisodesByShow_returned env w tvShow baseUrl log res url doc seasons err log'
              hget hstatus hurl hbody hrun
          obtain ⟨i, hi⟩ := List.mem_iff_getElem?.mp hseason
          rw [hseasons] at hi
          obtain ⟨_, _, _, heps⟩ := season_episodes w url _ _ _ i season hi
          cases hs : doc.episodeLists[i]? with
          | none =>
            rw [hs] at heps
            simp only [Option.map_none', Option.getD_none] at heps
            simp [heps]
          | some s =>
            rw [hs] at heps
            simp only [Option.map_some', Option.getD_some] at heps
            rw [heps]
            refine ⟨kept_chapters_increasing url s _ 0, ?_, ?_⟩
            · intro ep hep
              have := kept_chapter_gt url s _ 0 ep hep
              push_cast at this
              omega
            · intro hnone
              rw [herr] at hnone
              obtain ⟨_, hall⟩ := lastError_eq_none _ _ hnone
              have houts : ∀ o ∈ resolveAll w (s.map (internalUrlOf url))
                  ((log ++ [tvShow.Url]) ++
                    (doc.episodeLists.take i).flatten.map (internalUrlOf url)),
                  o.2 = none := by
                intro o ho
                apply hall
                apply List.mem_flatten.mpr
                refine ⟨_, @List.getElem?_mem _ _ i _ ?_, ho⟩
                rw [resolveLists_getElem?, hs]
                rfl
              obtain ⟨h1, _, h3⟩ := kept_of_all_resolved url s _ 0
                (by rw [resolveAll_length, List.length_map]) houts
              rw [h3, h1]
    · simp only [getEpisodesByShow, httpGet, hget, hstatus, Run.done.injEq, Prod.mk.injEq,
        ne_eq, not_false_eq_true, if_true] at hrun
      rw [← hrun.1.1] at hseason
      simp at hseason

theorem getEpisodesByShow_chapters_witness :
    (([{ Name := "Dos", InternalUrl := "https://lacartoons.test/e/2",
         ExternalUrl := "https://video.test/v", Chapter := 2 }] : List Episode).map
        (fun ep => ep.Chapter)).Pairwise (fun a b => a < b) ∧
    (∀ ep ∈ ([{ Name := "Dos", InternalUrl := "https://lacartoons.test/e/2",
                ExternalUrl := "https://video.test/v", Chapter := 2 }] : List Episode),
      1 ≤ ep.Chapter) :=
  have h := getEpisodesByShow_chapters env64 flakySite alpha "https://lacartoons.test" []
    [{ Name := "Temporada 1",
       Episodes := [{ Name := "Dos", InternalUrl := "https://lacartoons.test/e/2",
                      ExternalUrl := "https://video.test/v", Chapter := 2 }] }]
    (some (.status 404))
    ["https://lacartoons.test/serie/1", "https://lacartoons.test/e/1",
     "https://lacartoons.test/e/2", "https://lacartoons.test/e/3"] (by decide)
    { Name := "Temporada 1",
      Episodes := [{ Name := "Dos", InternalUrl := "https://lacartoons.test/e/2",
                     ExternalUrl := "https://video.test/v", Chapter := 2 }] }
    (List.mem_singleton.mpr rfl)
  ⟨h.1, h.2.1⟩

/-- C2, as stated, fails: on a show page with one container of three anchors,
the resolver failing for the first and the third and succeeding for the second,
the season returned holds one episode and its chapter number is 2, not 1. -/
theorem getEpisodesByShow_chapter_gap :
    ∃ (season : Season) (err : Option Error) (log' : List String),
      getEpisodesByShow env64 flakySite alpha "https://lacartoons.test" [] =
        .done (([season], err), log') ∧
      season.Episodes.map (fun ep => ep.Chapter) = [2] ∧
      season.Episodes.map (fun ep => ep.Chapter) ≠
        (List.range' 1 season.Episodes.length).map (fun k : Nat => (k : Int)) :=
  ⟨{ Name := "Temporada 1",
     Episodes := [{ Name := "Dos", InternalUrl := "https://lacartoons.test/e/2",
                    ExternalUrl := "https://video.test/v", Chapter := 2 }] },
   some (.status 404),
   ["https://lacartoons.test/serie/1", "https://lacartoons.test/e/1",
    "https://lacartoons.test/e/2", "https://lacartoons.test/e/3"],
   by decide, by decide, by decide⟩

end LaCartoons
